import Mathlib

/-!
# Expenses view of the energy dashboard (`client/src/components/myCommponents/Expenses.jsx`)

A shallow embedding of the `Expenses` React component: the rate state with its
`localStorage` life cycle (`useEffect` loader, `handleSaveRate`), the totals
(`totalEnergyKwh`, `totalCost`) and the room-wise breakdown
(`locations`, `roomDevices`, `devicesWithCost`).

JavaScript numbers are IEEE-754 binary64 values.  Every finite binary64 value is an
integer multiple of `2^-1074`, so a finite number is represented by that integer
(`JSNum.fin k` stands for `k * 2^-1074`).  The sign of zero is not represented: none of
the operations used by the component (`+`, `*`, `-`, `< 0`, `isNaN`, truthiness,
`String`) tells `-0` from `+0`.
-/

set_option exponentiation.threshold 5000
set_option maxRecDepth 8000

namespace Benstore

/-! ## Numbers -/

/-- A JavaScript Number: `NaN`, an infinity, or the finite value `k * 2^-1074`. -/
inductive JSNum where
  | nan : JSNum
  | inf (neg : Bool) : JSNum
  | fin (k : Int) : JSNum
  deriving DecidableEq, Repr

/-- Number of grid units (`2^-1074`) in the value one. -/
def unit : Nat := 2 ^ 1074

/-- First magnitude (in grid units) that no longer is a finite binary64 value: `2^1024`. -/
def overflowBound : Nat := 2 ^ 2098

/-- Auxiliary binary logarithm: exact on `1 ≤ n < 2 ^ 2 ^ l`. -/
def ilog2Aux : Nat → Nat → Nat
  | 0, _ => 0
  | l + 1, n => if 2 ^ 2 ^ l ≤ n then 2 ^ l + ilog2Aux l (n / 2 ^ 2 ^ l) else ilog2Aux l n

/-- Floor of the binary logarithm, exact on `1 ≤ n < 2 ^ 4096`. -/
def ilog2 (n : Nat) : Nat := ilog2Aux 12 n

/-- The binary exponent of the grid spacing around `q0` units: below `2^53` units the
spacing is one unit (subnormals and the first binade), above it a value keeps 53
significant bits. -/
def shiftOf (q0 : Nat) : Nat := if q0 < 2 ^ 53 then 0 else ilog2 q0 - 52

/-- The integer nearest to `N / Ds`, ties to even. -/
def roundHalfEven (N Ds : Nat) : Nat :=
  if Ds < 2 * (N % Ds) ∨ (2 * (N % Ds) = Ds ∧ (N / Ds) % 2 = 1) then N / Ds + 1 else N / Ds

/-- Round the non-negative rational `N / D` (measured in grid units) to the nearest binary64
magnitude, ties to even; `none` is overflow to infinity. -/
def roundNat (N D : Nat) : Option Nat :=
  if overflowBound ≤ N / D then none
  else if overflowBound ≤ roundHalfEven N (D * 2 ^ shiftOf (N / D)) * 2 ^ shiftOf (N / D) then none
  else some (roundHalfEven N (D * 2 ^ shiftOf (N / D)) * 2 ^ shiftOf (N / D))

/-- The Number nearest to the signed rational `± N / D` grid units. -/
def ofRat (neg : Bool) (N D : Nat) : JSNum :=
  match roundNat N D with
  | none => .inf neg
  | some k => .fin (if neg then -(k : Int) else k)

/-- The Number nearest to an integer number of grid units. -/
def ofUnits (z : Int) : JSNum := ofRat (decide (z < 0)) z.natAbs 1

/-- The Number nearest to the decimal `± M * 10^E` (the rounding of a numeric literal). -/
def ofDecimal (neg : Bool) (M : Nat) (E : Int) : JSNum :=
  match E with
  | .ofNat e => ofRat neg (M * 10 ^ e * unit) 1
  | .negSucc e => ofRat neg (M * unit) (10 ^ (e + 1))

/-- The Number of a small non-negative integer literal. -/
def numLit (n : Nat) : JSNum := ofDecimal false n 0

namespace JSNum

/-- Unary minus. -/
def neg : JSNum → JSNum
  | nan => nan
  | inf s => inf (!s)
  | fin k => fin (-k)

/-- Addition `a + b` of two Numbers. -/
def add : JSNum → JSNum → JSNum
  | nan, _ => nan
  | _, nan => nan
  | inf s, inf t => if s = t then inf s else nan
  | inf s, fin _ => inf s
  | fin _, inf t => inf t
  | fin a, fin b => ofUnits (a + b)

/-- Subtraction `a - b` of two Numbers. -/
def sub (a b : JSNum) : JSNum := add a (neg b)

/-- Multiplication `a * b` of two Numbers. -/
def mul : JSNum → JSNum → JSNum
  | nan, _ => nan
  | _, nan => nan
  | inf s, inf t => inf (xor s t)
  | inf s, fin b => if b = 0 then nan else inf (xor s (decide (b < 0)))
  | fin a, inf t => if a = 0 then nan else inf (xor (decide (a < 0)) t)
  | fin a, fin b => ofRat (xor (decide (a < 0)) (decide (b < 0))) (a.natAbs * b.natAbs) unit

/-- The global `isNaN` on a Number. -/
def isNaN : JSNum → Bool
  | nan => true
  | _ => false

/-- The test `x < 0`. -/
def ltZero : JSNum → Bool
  | nan => false
  | inf s => s
  | fin k => decide (k < 0)

/-- The test `x > 0`. -/
def gtZero : JSNum → Bool
  | nan => false
  | inf s => !s
  | fin k => decide (0 < k)

/-- ToBoolean of a Number: `0` and `NaN` are falsy. -/
def truthy : JSNum → Bool
  | nan => false
  | inf _ => true
  | fin k => decide (k ≠ 0)

/-- The operator `x || y` on Numbers. -/
def orElse (x y : JSNum) : JSNum := if truthy x then x else y

/-- Finite Numbers. -/
def isFinite : JSNum → Bool
  | fin _ => true
  | _ => false

end JSNum

/-! ## Numeric literals in strings -/

/-- WhiteSpace and LineTerminator code points, the characters removed by `TrimString`. -/
def isWhiteSpace (c : Char) : Bool :=
  let n := c.toNat
  decide (n = 9) || decide (n = 10) || decide (n = 11) || decide (n = 12) || decide (n = 13) ||
  decide (n = 32) || decide (n = 160) || decide (n = 0x1680) ||
  (decide (0x2000 ≤ n) && decide (n ≤ 0x200A)) || decide (n = 0x2028) || decide (n = 0x2029) ||
  decide (n = 0x202F) || decide (n = 0x205F) || decide (n = 0x3000) || decide (n = 0xFEFF)

/-- Decimal digits `0`..`9`. -/
def isDecDigit (c : Char) : Bool := decide (48 ≤ c.toNat) && decide (c.toNat ≤ 57)

/-- Value of a decimal digit. -/
def digitVal (c : Char) : Nat := c.toNat - 48

/-- Read the longest run of decimal digits: returns the accumulated value, the number of
digits read and the remaining input. -/
def scanDigits : List Char → Nat → Nat → Nat × Nat × List Char
  | [], acc, cnt => (acc, cnt, [])
  | c :: cs, acc, cnt =>
    if isDecDigit c then scanDigits cs (acc * 10 + digitVal c) (cnt + 1) else (acc, cnt, c :: cs)

/-- A scanned `StrUnsignedDecimalLiteral`: `Infinity` or the decimal `M * 10^E`. -/
inductive StrLit where
  | infinity : StrLit
  | dec (M : Nat) (E : Int) : StrLit
  deriving DecidableEq, Repr

/-- An optional sign `+` or `-`. -/
def scanSign : List Char → Bool × List Char
  | [] => (false, [])
  | c :: r => if c = '-' then (true, r) else if c = '+' then (false, r) else (false, c :: r)

/-- An optional `ExponentPart`: `e` or `E`, an optional sign and at least one digit.
Without a digit the exponent is not part of the literal and nothing is consumed. -/
def scanExponent (cs : List Char) : Int × List Char :=
  match cs with
  | [] => (0, [])
  | c :: r =>
    if c = 'e' ∨ c = 'E' then
      if (scanDigits (scanSign r).2 0 0).2.1 = 0 then (0, cs)
      else
        (if (scanSign r).1 then -((scanDigits (scanSign r).2 0 0).1 : Int)
          else ((scanDigits (scanSign r).2 0 0).1 : Int),
         (scanDigits (scanSign r).2 0 0).2.2)
    else (0, cs)

/-- The input after the word `Infinity`, if it starts with it. -/
def stripInfinity (cs : List Char) : Option (List Char) :=
  if cs.take 8 = ['I', 'n', 'f', 'i', 'n', 'i', 't', 'y'] then some (cs.drop 8) else none

/-- An optional fraction: a dot and the digits after it, continuing the value `intVal` of the
digits before the dot; the result is the value of all digits, the number of fraction digits
and the remaining input. -/
def scanFraction (intVal : Nat) : List Char → Option (Nat × Nat × List Char)
  | [] => none
  | c :: r => if c = '.' then some (scanDigits r intVal 0) else none

/-- The longest prefix that is a `StrUnsignedDecimalLiteral`, with the remaining input:
`Infinity`, `digits [. [digits]] [exponent]` or `. digits [exponent]`. -/
def scanUnsigned (cs : List Char) : Option (StrLit × List Char) :=
  match stripInfinity cs with
  | some r => some (.infinity, r)
  | none =>
    match scanFraction (scanDigits cs 0 0).1 (scanDigits cs 0 0).2.2 with
    | some f =>
      if (scanDigits cs 0 0).2.1 = 0 ∧ f.2.1 = 0 then none
      else some (.dec f.1 ((scanExponent f.2.2).1 - (f.2.1 : Int)), (scanExponent f.2.2).2)
    | none =>
      if (scanDigits cs 0 0).2.1 = 0 then none
      else
        some (.dec (scanDigits cs 0 0).1 (scanExponent (scanDigits cs 0 0).2.2).1,
          (scanExponent (scanDigits cs 0 0).2.2).2)

/-- The longest prefix that is a `StrDecimalLiteral` (a signed literal). -/
def scanSigned (cs : List Char) : Option (Bool × StrLit × List Char) :=
  match scanUnsigned (scanSign cs).2 with
  | none => none
  | some (lit, rest) => some ((scanSign cs).1, lit, rest)

/-- The Number denoted by a signed literal. -/
def litValue (neg : Bool) : StrLit → JSNum
  | .infinity => .inf neg
  | .dec M E => ofDecimal neg M E

/-- The global `parseFloat`: leading white space is skipped, the longest prefix that is a
decimal literal is converted, anything after it is ignored; `NaN` without such a prefix. -/
def parseFloat (s : String) : JSNum :=
  match scanSigned (s.toList.dropWhile isWhiteSpace) with
  | none => .nan
  | some (neg, lit, _) => litValue neg lit

/-- Value of a digit in radix 2, 8 or 16, if it is one. -/
def radixDigit (radix : Nat) (c : Char) : Option Nat :=
  let n := c.toNat
  let v := if 48 ≤ n ∧ n ≤ 57 then n - 48
    else if 97 ≤ n ∧ n ≤ 102 then n - 87
    else if 65 ≤ n ∧ n ≤ 70 then n - 55
    else radix
  if v < radix then some v else none

/-- All characters as digits of the given radix. -/
def scanRadix (radix : Nat) : List Char → Nat → Option Nat
  | [], acc => some acc
  | c :: cs, acc =>
    match radixDigit radix c with
    | none => none
    | some v => scanRadix radix cs (acc * radix + v)

/-- The abstract operation `StringToNumber`: white space is trimmed at both ends; the empty
string is `0`; the whole rest has to be a numeric literal (decimal, or `0x`, `0o`, `0b` integer). -/
def stringToNumber (s : String) : JSNum :=
  let cs := ((s.toList.dropWhile isWhiteSpace).reverse.dropWhile isWhiteSpace).reverse
  let radixLit (radix : Nat) (r : List Char) : JSNum :=
    match r, scanRadix radix r 0 with
    | _ :: _, some v => ofDecimal false v 0
    | _, _ => .nan
  match cs with
  | [] => .fin 0
  | '0' :: 'x' :: r => radixLit 16 r
  | '0' :: 'X' :: r => radixLit 16 r
  | '0' :: 'o' :: r => radixLit 8 r
  | '0' :: 'O' :: r => radixLit 8 r
  | '0' :: 'b' :: r => radixLit 2 r
  | '0' :: 'B' :: r => radixLit 2 r
  | _ =>
    match scanSigned cs with
    | some (neg, lit, []) => litValue neg lit
    | _ => .nan

/-! ## Number to string (`Number::toString`, radix 10) -/

/-- Character of a decimal digit. -/
def digitChar (d : Nat) : Char := Char.ofNat (48 + d)

/-- The `k` least significant decimal digits of `s`, most significant first. -/
def fixedDigits : Nat → Nat → List Char
  | 0, _ => []
  | k + 1, s => fixedDigits k (s / 10) ++ [digitChar (s % 10)]

/-- Number of decimal digits of `n`, with fuel. -/
def decLenAux : Nat → Nat → Nat
  | 0, _ => 1
  | f + 1, n => if n < 10 then 1 else decLenAux f (n / 10) + 1

/-- Number of decimal digits of `n` (one for `0`). -/
def decLen (n : Nat) : Nat := decLenAux n n

/-- The integers `s`, `k`, `n` of `Number::toString`: `k` digits `s` standing for the value
`s * 10^(n - k)`. -/
structure Digits where
  s : Nat
  k : Nat
  n : Int
  deriving DecidableEq, Repr

/-- The decimal exponent `n` with `10^(n-1) ≤ K * 2^-1074 < 10^n`, for `K > 0`. -/
def decimalExponent (K : Nat) : Int :=
  if unit ≤ K then (decLen (K / unit) : Int) else 1 - (decLen (unit / K) : Int)

/-- A `k`-digit decimal is admissible for `K` when it has exactly `k` digits and the
Number nearest to it is `K` grid units. -/
def admissible (K : Nat) (d : Digits) : Bool :=
  decide (10 ^ (d.k - 1) ≤ d.s) && decide (d.s < 10 ^ d.k) &&
    decide (ofDecimal false d.s (d.n - (d.k : Int)) = .fin (K : Int))

/-- The two `k`-digit decimals around `K` grid units, the nearer one first (the even one on
a tie): only these can be admissible. -/
def candidates (K k : Nat) : Digits × Digits :=
  let n0 := decimalExponent K
  let e := n0 - (k : Int)
  let N := if e ≤ 0 then K * 10 ^ (-e).toNat else K
  let D := if e ≤ 0 then unit else unit * 10 ^ e.toNat
  let lo := N / D
  let rem := N % D
  let candLo : Digits := ⟨lo, k, n0⟩
  let candHi : Digits := if lo + 1 < 10 ^ k then ⟨lo + 1, k, n0⟩ else ⟨10 ^ (k - 1), k, n0 + 1⟩
  if D < 2 * rem ∨ (2 * rem = D ∧ lo % 2 = 1) then (candHi, candLo) else (candLo, candHi)

/-- The admissible `k`-digit decimal nearest to `K` grid units, if there is one. -/
def pickDigits (K k : Nat) : Option Digits :=
  if admissible K (candidates K k).1 then some (candidates K k).1
  else if admissible K (candidates K k).2 then some (candidates K k).2
  else none

/-- Search for the least number of digits `k, k+1, ...` with an admissible decimal. -/
def searchDigits (K : Nat) : Nat → Nat → Option Digits
  | 0, _ => none
  | f + 1, k =>
    match pickDigits K k with
    | some d => some d
    | none => searchDigits K f (k + 1)

/-- The exact decimal expansion of `K * 2^-1074`, namely `K * 5^1074 * 10^-1074`. -/
def exactDigits (K : Nat) : Digits :=
  ⟨K * 5 ^ 1074, decLen (K * 5 ^ 1074), (decLen (K * 5 ^ 1074) : Int) - 1074⟩

/-- Step 5 of `Number::toString`: the shortest decimal whose Number value is `K` grid units,
nearest to the exact value.  Seventeen digits always identify a binary64 value, so the
exact expansion is only the last resort that keeps the function total. -/
def shortestDigits (K : Nat) : Digits :=
  match searchDigits K 17 1 with
  | some d => d
  | none => exactDigits K

/-- Steps 6 to 10 of `Number::toString`: the layout of the digits. -/
def formatDigits (d : Digits) : List Char :=
  if (d.k : Int) ≤ d.n ∧ d.n ≤ 21 then
    fixedDigits d.k d.s ++ List.replicate (d.n - (d.k : Int)).toNat '0'
  else if 0 < d.n ∧ d.n ≤ 21 then
    fixedDigits d.n.toNat (d.s / 10 ^ (d.k - d.n.toNat)) ++
      '.' :: fixedDigits (d.k - d.n.toNat) (d.s % 10 ^ (d.k - d.n.toNat))
  else if -6 < d.n ∧ d.n ≤ 0 then
    '0' :: '.' :: (List.replicate (-d.n).toNat '0' ++ fixedDigits d.k d.s)
  else
    let e := d.n - 1
    let es := (if e < 0 then '-' else '+') :: fixedDigits (decLen e.natAbs) e.natAbs
    if d.k = 1 then fixedDigits 1 d.s ++ 'e' :: es
    else
      fixedDigits 1 (d.s / 10 ^ (d.k - 1)) ++
        '.' :: (fixedDigits (d.k - 1) (d.s % 10 ^ (d.k - 1)) ++ 'e' :: es)

/-- The conversion `String(x)` of a Number `x`. -/
def numToString : JSNum → String
  | .nan => "NaN"
  | .inf false => "Infinity"
  | .inf true => "-Infinity"
  | .fin k =>
    if k = 0 then "0"
    else if k < 0 then String.mk ('-' :: formatDigits (shortestDigits k.natAbs))
    else String.mk (formatDigits (shortestDigits k.natAbs))

/-! ## Device records -/

/-- The value found in a field of a device record: the source does not check it.  `object`
stands for a plain object, which `Number` converts to `NaN`; arrays, which `Number` converts
through their text, are not modelled. -/
inductive JSVal where
  | undefined : JSVal
  | null : JSVal
  | bool (b : Bool) : JSVal
  | num (x : JSNum) : JSVal
  | str (s : String) : JSVal
  | object : JSVal
  deriving DecidableEq, Repr

/-- The conversion `Number(v)`. -/
def Number : JSVal → JSNum
  | .undefined => .nan
  | .null => .fin 0
  | .bool b => if b then numLit 1 else .fin 0
  | .num x => x
  | .str s => stringToNumber s
  | .object => .nan

/-- A device usage record of `userData`; `energy` is absent when it is `undefined`. -/
structure Device where
  _id : String
  name : String
  type : String
  location : String
  energy : JSVal
  switchStatus : Bool
  deriving DecidableEq, Repr

/-- The object `{...device, cost}` built for the breakdown. -/
structure DeviceWithCost where
  device : Device
  cost : JSNum
  deriving DecidableEq, Repr

/-! ## Rate state and `localStorage` -/

/-- The key-value string store `localStorage`. -/
abbrev Storage := List (String × String)

/-- The call `localStorage.getItem(key)`, `none` for `null`. -/
def getItem : Storage → String → Option String
  | [], _ => none
  | (k, v) :: rest, key => if k = key then some v else getItem rest key

/-- The call `localStorage.setItem(key, value)`. -/
def setItem : Storage → String → String → Storage
  | [], key, value => [(key, value)]
  | (k, v) :: rest, key, value =>
    if k = key then (k, value) :: rest else (k, v) :: setItem rest key value

/-- A notification raised through `toast`; the success message is kept as the rate it
reports. -/
inductive Toast where
  | error (message : String) : Toast
  | success (rate : JSNum) : Toast
  deriving DecidableEq, Repr

/-- The state of the component (`pricePerKwh`, `tempRate`, `isEditingRate`) together with
the store and the notifications raised so far. -/
structure World where
  pricePerKwh : JSNum
  tempRate : String
  isEditingRate : Bool
  localStorage : Storage
  toasts : List Toast
  deriving DecidableEq, Repr

/-- The fallback rate when none is saved. -/
def DEFAULT_PRICE_PER_KWH : JSNum := numLit 50

/-- The state at the first render: the `useState` initial values. -/
def initialWorld (store : Storage) : World :=
  { pricePerKwh := DEFAULT_PRICE_PER_KWH
    tempRate := numToString DEFAULT_PRICE_PER_KWH
    isEditingRate := false
    localStorage := store
    toasts := [] }

/-- The mount effect: load the saved rate from `localStorage`. -/
def loadSavedRate (w : World) : World :=
  match getItem w.localStorage "energyRate" with
  | none => w
  | some savedRate =>
    if savedRate ≠ "" then
      let rate := parseFloat savedRate
      if !rate.isNaN then { w with pricePerKwh := rate, tempRate := numToString rate }
      else w
    else w

/-- The rate in force after a (re)start on the given store: first render, then the mount
effect. -/
def loadPersistedRate (store : Storage) : JSNum :=
  (loadSavedRate (initialWorld store)).pricePerKwh

/-- The handler of the Save button. -/
def handleSaveRate (w : World) : World :=
  let newRate := parseFloat w.tempRate
  if newRate.isNaN || newRate.ltZero then
    { w with toasts := w.toasts ++ [.error "Please enter a valid positive number for the rate."] }
  else
    { w with
      pricePerKwh := newRate
      localStorage := setItem w.localStorage "energyRate" (numToString newRate)
      isEditingRate := false
      toasts := w.toasts ++ [.success newRate] }

/-- The handler of the Change Rate button. -/
def beginEdit (w : World) : World :=
  { w with tempRate := numToString w.pricePerKwh, isEditingRate := true }

/-- The `onChange` handler of the rate input. -/
def onChangeRate (w : World) (value : String) : World := { w with tempRate := value }

/-- The handler of the Cancel button. -/
def cancelEdit (w : World) : World := { w with isEditingRate := false }

/-- Typing a candidate text into the rate input and pressing Save. -/
def updateRate (w : World) (candidateText : String) : World :=
  handleSaveRate (onChangeRate w candidateText)

/-! ## Totals and the room-wise breakdown -/

/-- The expression `Number(device.energy) || 0`. -/
def energyOf (device : Device) : JSNum := (Number device.energy).orElse (.fin 0)

/-- The `reduce` computing the total energy. -/
def totalEnergyKwh (userData : List Device) : JSNum :=
  userData.foldl (fun sum device => sum.add (energyOf device)) (.fin 0)

/-- The total cost shown in the summary card. -/
def totalCost (userData : List Device) (pricePerKwh : JSNum) : JSNum :=
  (totalEnergyKwh userData).mul pricePerKwh

/-- The method `Set.prototype.add`: a value already present is not added again. -/
def setAdd (s : List String) (x : String) : List String := if x ∈ s then s else s ++ [x]

/-- The expression `[...new Set(values)]`: the distinct values in insertion order. -/
def newSet (values : List String) : List String := values.foldl setAdd []

/-- The distinct locations of the devices. -/
def locations (userData : List Device) : List String :=
  newSet (userData.map (fun device => device.location))

/-- The devices of one room. -/
def roomDevices (userData : List Device) (room : String) : List Device :=
  userData.filter (fun device => device.location = room)

/-- The comparator `(a, b) => b.cost - a.cost`. -/
def compareCost (a b : DeviceWithCost) : JSNum := b.cost.sub a.cost

/-- Insert `a` in front of the first element it does not have to follow: `a` follows `b`
only when the comparator is positive (`NaN` counts as `0`). -/
def orderedInsert (cmp : DeviceWithCost → DeviceWithCost → JSNum) (a : DeviceWithCost) :
    List DeviceWithCost → List DeviceWithCost
  | [] => [a]
  | b :: l => if (cmp a b).gtZero then b :: orderedInsert cmp a l else a :: b :: l

/-- The method `Array.prototype.sort` with a comparator.  The sort is stable, and for a
consistent comparator every stable sort gives the same array; it is written here as an
insertion sort.  When a cost is `NaN` the comparator is not consistent and the order chosen
by an engine is implementation-defined: there only the fact that the result is a permutation
of the input is used. -/
def arraySort (cmp : DeviceWithCost → DeviceWithCost → JSNum) :
    List DeviceWithCost → List DeviceWithCost
  | [] => []
  | a :: l => orderedInsert cmp a (arraySort cmp l)

/-- The devices of a room with their cost, most expensive first. -/
def devicesWithCost (userData : List Device) (pricePerKwh : JSNum) (room : String) :
    List DeviceWithCost :=
  arraySort compareCost
    ((roomDevices userData room).map
      (fun device => { device := device, cost := (energyOf device).mul pricePerKwh }))

/-- One card of the room-wise breakdown. -/
structure RoomCard where
  room : String
  devices : List DeviceWithCost
  deriving DecidableEq, Repr

/-- The room-wise expense breakdown: one card for each location. -/
def breakdown (userData : List Device) (pricePerKwh : JSNum) : List RoomCard :=
  (locations userData).map
    (fun room => { room := room, devices := devicesWithCost userData pricePerKwh room })

/-- What the component renders: the placeholder, or the page with the numbers handed to the
formatters. -/
inductive View where
  | noData : View
  | page (rate : JSNum) (editing : Bool) (totalCost totalEnergy : JSNum)
      (rooms : List RoomCard) : View
  deriving DecidableEq, Repr

/-- The component: `userData` is `none` when the store holds `null` or `undefined`. -/
def Expenses (w : World) (userData : Option (List Device)) : View :=
  match userData with
  | none => .noData
  | some devices =>
    if devices.length = 0 then .noData
    else
      .page w.pricePerKwh w.isEditingRate (totalCost devices w.pricePerKwh)
        (totalEnergyKwh devices) (breakdown devices w.pricePerKwh)

/-! ## The quantities of the specification -/

/-- The energy of a device as the specification counts it: a value that is missing or does
not convert to a number counts as `0`. -/
def specEnergy (d : Device) : JSNum :=
  if (Number d.energy).isNaN then .fin 0 else Number d.energy

/-- A numeric value in the plain sense of the specification: a number other than `NaN`, or a
text that is a numeric literal.  The value `undefined` (an absent field), `null`, the
booleans and plain objects are not numeric. -/
def isNumeric : JSVal → Bool
  | .num x => !x.isNaN
  | .str s => !(stringToNumber s).isNaN
  | _ => false

/-- The sum of a sequence of Numbers, accumulated from left to right starting at `0`. -/
def specSum (xs : List JSNum) : JSNum := xs.foldl JSNum.add (.fin 0)

/-- The order of two Numbers that are not `NaN`: `-Infinity`, the finite values, `Infinity`. -/
def numLe : JSNum → JSNum → Prop
  | .fin a, .fin b => a ≤ b
  | .inf s, .inf t => s = true ∨ t = false
  | .inf s, .fin _ => s = true
  | .fin _, .inf t => t = false
  | _, _ => False

/-- What reading back a printed number has to deliver: the literal found is the whole
input, it denotes the printed decimal, and the input starts with a digit. -/
def ReadsBack (cs : List Char) (s : Nat) (E : Int) : Prop :=
  (∃ M F, scanUnsigned cs = some (.dec M F, []) ∧
    ∀ neg, ofDecimal neg M F = ofDecimal neg s E) ∧
  ∃ c t, c < 10 ∧ cs = digitChar c :: t

/-- The finite Numbers on the binary64 grid: rounding leaves them as they are. -/
def Representable : JSNum → Prop
  | .fin z => roundNat z.natAbs 1 = some z.natAbs
  | _ => True

/-! ## Sample data -/

/-- A device record with the given energy and location, the other fields left blank. -/
def sampleDevice (energy : JSVal) (location : String) : Device :=
  { _id := "", name := "", type := "", location := location, energy := energy,
    switchStatus := true }

/-- The device list of the worked example: energies 2 and 3 in the kitchen, 1 in the bedroom. -/
def sampleDevices : List Device :=
  [sampleDevice (.num (numLit 2)) "Kitchen", sampleDevice (.num (numLit 3)) "Kitchen",
   sampleDevice (.num (numLit 1)) "Bedroom"]

/-- Two kitchen devices with energies `0.1` and `0.2`. -/
def fractionalDevices : List Device :=
  [sampleDevice (.num (parseFloat "0.1")) "Kitchen", sampleDevice (.num (parseFloat "0.2")) "Kitchen"]

/-- The computed costs shown in the breakdown, card by card. -/
def breakdownCosts (userData : List Device) (pricePerKwh : JSNum) : List JSNum :=
  (breakdown userData pricePerKwh).flatMap (fun g => g.devices.map (fun x => x.cost))

/-! ## Lists: `Set`, `filter` and `sort` -/

theorem foldl_setAdd (l : List String) : ∀ acc : List String,
    l.foldl setAdd acc = acc ++ (newSet l).filter (fun x => decide (x ∉ acc)) := by
  induction l with
  | nil => intro acc; simp [newSet]
  | cons y l ih =>
    intro acc
    have h1 : newSet (y :: l) = [y] ++ (newSet l).filter (fun x => decide (x ∉ [y])) := by
      have := ih (setAdd [] y)
      simpa [newSet, setAdd] using this
    rw [List.foldl_cons, ih, h1]
    by_cases hy : y ∈ acc
    · have hs : setAdd acc y = acc := by simp [setAdd, hy]
      rw [hs]
      congr 1
      simp only [List.filter_append, List.filter_filter]
      have : List.filter (fun x => decide (x ∉ acc)) [y] = [] := by simp [hy]
      rw [this, List.nil_append]
      apply List.filter_congr
      intro x _
      by_cases hx : x ∈ acc
      · simp [hx]
      · have : x ≠ y := fun h => hx (h ▸ hy)
        simp [hx, this]
    · have hs : setAdd acc y = acc ++ [y] := by simp [setAdd, hy]
      rw [hs]
      simp only [List.filter_append, List.filter_filter, List.append_assoc]
      congr 1
      have : List.filter (fun x => decide (x ∉ acc)) [y] = [y] := by simp [hy]
      rw [this]
      congr 1
      apply List.filter_congr
      intro x _
      by_cases hx : x ∈ acc <;> by_cases hxy : x = y <;> simp [hx, hxy]

theorem newSet_nil : newSet [] = [] := rfl

theorem newSet_cons (y : String) (l : List String) :
    newSet (y :: l) = y :: (newSet l).filter (fun x => decide (x ≠ y)) := by
  have := foldl_setAdd l (setAdd [] y)
  simpa [newSet, setAdd] using this

theorem mem_newSet (l : List String) (x : String) : x ∈ newSet l ↔ x ∈ l := by
  induction l with
  | nil => simp [newSet_nil]
  | cons y l ih =>
    rw [newSet_cons]
    by_cases h : x = y
    · simp [h]
    · simp [h, ih]

theorem nodup_newSet (l : List String) : (newSet l).Nodup := by
  induction l with
  | nil => simp [newSet_nil]
  | cons y l ih =>
    rw [newSet_cons, List.nodup_cons]
    exact ⟨by simp, ih.filter _⟩

theorem newSet_firstSeen (l : List String) :
    (newSet l).Pairwise (fun a b => l.indexOf a < l.indexOf b) := by
  induction l with
  | nil => simp [newSet_nil]
  | cons y l ih =>
    rw [newSet_cons, List.pairwise_cons]
    constructor
    · intro b hb
      have hby : b ≠ y := by simpa using (List.mem_filter.mp hb).2
      rw [List.indexOf_cons_self, List.indexOf_cons_ne _ (Ne.symm hby)]
      exact Nat.succ_pos _
    · have hsub : ((newSet l).filter (fun x => decide (x ≠ y))).Pairwise
          (fun a b => l.indexOf a < l.indexOf b) := ih.sublist (List.filter_sublist _)
      refine (List.Pairwise.and_mem.mp hsub).imp ?_
      intro a b hab
      obtain ⟨ha, hb, hlt⟩ := hab
      have hay : a ≠ y := by simpa using (List.mem_filter.mp ha).2
      have hby : b ≠ y := by simpa using (List.mem_filter.mp hb).2
      rw [List.indexOf_cons_ne _ (Ne.symm hay), List.indexOf_cons_ne _ (Ne.symm hby)]
      exact Nat.succ_lt_succ hlt

theorem perm_orderedInsert (cmp : DeviceWithCost → DeviceWithCost → JSNum) (a : DeviceWithCost)
    (l : List DeviceWithCost) : (orderedInsert cmp a l).Perm (a :: l) := by
  induction l with
  | nil => simp [orderedInsert]
  | cons b l ih =>
    unfold orderedInsert
    split
    · exact (List.Perm.cons b ih).trans (List.Perm.swap a b l)
    · exact List.Perm.refl _

theorem perm_arraySort (cmp : DeviceWithCost → DeviceWithCost → JSNum)
    (l : List DeviceWithCost) : (arraySort cmp l).Perm l := by
  induction l with
  | nil => simp [arraySort]
  | cons a l ih =>
    unfold arraySort
    exact (perm_orderedInsert cmp a _).trans (List.Perm.cons a ih)

theorem perm_devicesWithCost (userData : List Device) (r : JSNum) (room : String) :
    (devicesWithCost userData r room).Perm
      ((roomDevices userData room).map
        (fun device => { device := device, cost := (energyOf device).mul r })) :=
  perm_arraySort _ _

theorem mem_devicesWithCost (userData : List Device) (r : JSNum) (room : String)
    (x : DeviceWithCost) :
    x ∈ devicesWithCost userData r room ↔
      x.device ∈ userData ∧ x.device.location = room ∧ x.cost = (energyOf x.device).mul r := by
  rw [(perm_devicesWithCost userData r room).mem_iff]
  simp only [roomDevices, List.mem_map, List.mem_filter, decide_eq_true_eq]
  constructor
  · rintro ⟨d, ⟨hd, hl⟩, rfl⟩
    exact ⟨hd, hl, rfl⟩
  · rintro ⟨hd, hl, hc⟩
    refine ⟨x.device, ⟨hd, hl⟩, ?_⟩
    cases x
    simp_all

theorem perm_flatMap_filter (L : List String) : ∀ D : List Device, L.Nodup →
    (∀ d ∈ D, d.location ∈ L) →
    (L.flatMap (fun room => roomDevices D room)).Perm D := by
  induction L with
  | nil =>
    intro D _ h
    cases D with
    | nil => simp
    | cons d D => exact absurd (h d (List.mem_cons_self _ _)) (List.not_mem_nil _)
  | cons l L ih =>
    intro D hnd h
    rw [List.nodup_cons] at hnd
    have hrest : L.flatMap (fun room => roomDevices D room) =
        L.flatMap (fun room => roomDevices (D.filter (fun d => !decide (d.location = l))) room) := by
      apply List.flatMap_congr
      intro room hroom
      have hne : room ≠ l := fun e => hnd.1 (e ▸ hroom)
      simp only [roomDevices, List.filter_filter]
      apply List.filter_congr
      intro d _
      by_cases hd : d.location = room
      · have : d.location ≠ l := fun e => hne (hd ▸ e)
        simp [hd, this, hne]
      · simp [hd]
    have hih := ih (D.filter (fun d => !decide (d.location = l))) hnd.2 (by
      intro d hd
      rw [List.mem_filter] at hd
      have hl : d.location ≠ l := by simpa using hd.2
      have := h d hd.1
      rcases List.mem_cons.mp this with e | e
      · exact absurd e hl
      · exact e)
    rw [List.flatMap_cons, hrest]
    exact (List.Perm.append_left _ hih).trans
      (List.filter_append_perm (fun (d : Device) => decide (d.location = l)) D)

theorem energyOf_eq_specEnergy (d : Device) : energyOf d = specEnergy d := by
  unfold energyOf specEnergy JSNum.orElse
  cases h : Number d.energy with
  | nan => simp [JSNum.truthy, JSNum.isNaN]
  | inf s => simp [JSNum.truthy, JSNum.isNaN]
  | fin k =>
    by_cases hk : k = 0
    · simp [JSNum.truthy, JSNum.isNaN, hk]
    · simp [JSNum.truthy, JSNum.isNaN, hk]

theorem totalEnergyKwh_eq_specSum (userData : List Device) :
    totalEnergyKwh userData = specSum (userData.map specEnergy) := by
  unfold totalEnergyKwh specSum
  rw [List.foldl_map]
  congr 1
  funext sum device
  rw [energyOf_eq_specEnergy]

theorem mem_locations (userData : List Device) (l : String) :
    l ∈ locations userData ↔ ∃ d ∈ userData, d.location = l := by
  simp [locations, mem_newSet]

theorem breakdown_rooms (userData : List Device) (r : JSNum) :
    (breakdown userData r).map (fun g => g.room) = locations userData := by
  simp [breakdown, List.map_map, Function.comp_def]

theorem mem_breakdown (userData : List Device) (r : JSNum) (g : RoomCard) :
    g ∈ breakdown userData r ↔
      g.room ∈ locations userData ∧ g.devices = devicesWithCost userData r g.room := by
  simp only [breakdown, List.mem_map]
  constructor
  · rintro ⟨room, hroom, rfl⟩
    exact ⟨hroom, rfl⟩
  · rintro ⟨hroom, hdev⟩
    refine ⟨g.room, hroom, ?_⟩
    cases g
    simp_all

theorem devicesWithCost_devices_perm (userData : List Device) (r : JSNum) (room : String) :
    ((devicesWithCost userData r room).map (fun x => x.device)).Perm (roomDevices userData room) := by
  have h := (perm_devicesWithCost userData r room).map (fun x => x.device)
  simpa [List.map_map, Function.comp_def] using h

theorem devicesWithCost_costs_perm (userData : List Device) (r : JSNum) (room : String) :
    ((devicesWithCost userData r room).map (fun x => x.cost)).Perm
      ((roomDevices userData room).map (fun d => (energyOf d).mul r)) := by
  have h := (perm_devicesWithCost userData r room).map (fun x => x.cost)
  simpa [List.map_map, Function.comp_def] using h

theorem locations_cover (userData : List Device) :
    ∀ d ∈ userData, d.location ∈ locations userData :=
  fun d hd => (mem_locations userData d.location).mpr ⟨d, hd, rfl⟩

theorem totalEnergyKwh_append_cons (before after : List Device) (d : Device) :
    totalEnergyKwh (before ++ d :: after) =
      after.foldl (fun sum device => sum.add (energyOf device))
        ((totalEnergyKwh before).add (energyOf d)) := by
  simp [totalEnergyKwh, List.foldl_append]

/-! ## Rounding keeps the sign -/

theorem two_pow_ilog2Aux_le (l : Nat) : ∀ n : Nat, 0 < n → 2 ^ ilog2Aux l n ≤ n := by
  induction l with
  | zero => intro n hn; simpa [ilog2Aux] using hn
  | succ l ih =>
    intro n hn
    unfold ilog2Aux
    split
    · rename_i h
      have hpos : 0 < n / 2 ^ 2 ^ l := Nat.div_pos h (Nat.pos_pow_of_pos _ (by decide))
      calc 2 ^ (2 ^ l + ilog2Aux l (n / 2 ^ 2 ^ l))
          = 2 ^ 2 ^ l * 2 ^ ilog2Aux l (n / 2 ^ 2 ^ l) := by rw [Nat.pow_add]
        _ ≤ 2 ^ 2 ^ l * (n / 2 ^ 2 ^ l) := Nat.mul_le_mul_left _ (ih _ hpos)
        _ ≤ n := Nat.mul_div_le _ _
    · exact ih n hn

theorem two_pow_pos (n : Nat) : 0 < 2 ^ n := Nat.pos_pow_of_pos n (by decide)

theorem div_le_roundHalfEven (N Ds : Nat) : N / Ds ≤ roundHalfEven N Ds := by
  unfold roundHalfEven
  split
  · exact Nat.le_succ _
  · exact Nat.le_refl _

theorem two_pow_shiftOf_le (n : Nat) (hn : 0 < n) : 2 ^ shiftOf n ≤ n := by
  unfold shiftOf
  split
  · simpa using hn
  · exact le_trans (Nat.pow_le_pow_right (by decide) (Nat.sub_le _ _))
      (two_pow_ilog2Aux_le 12 n hn)

theorem roundNat_zero (D : Nat) : roundNat 0 D = some 0 := by
  simp [roundNat, overflowBound, roundHalfEven]

theorem roundNat_eq_some (N D k : Nat) (h : roundNat N D = some k) :
    k = roundHalfEven N (D * 2 ^ shiftOf (N / D)) * 2 ^ shiftOf (N / D) ∧ k < overflowBound := by
  unfold roundNat at h
  split at h
  · exact absurd h (by simp)
  · split at h
    · exact absurd h (by simp)
    · rename_i hk
      injection h with h
      exact ⟨h.symm, by rw [← h]; exact Nat.lt_of_not_le hk⟩

theorem roundNat_pos (N k : Nat) (hN : 0 < N) (h : roundNat N 1 = some k) : 0 < k := by
  rw [(roundNat_eq_some N 1 k h).1, Nat.div_one, Nat.one_mul]
  apply Nat.mul_pos _ (two_pow_pos _)
  exact lt_of_lt_of_le (Nat.div_pos (two_pow_shiftOf_le N hN) (two_pow_pos _))
    (div_le_roundHalfEven _ _)

theorem gtZero_ofUnits (z : Int) : (ofUnits z).gtZero = true ↔ 0 < z := by
  unfold ofUnits ofRat
  rcases lt_trichotomy z 0 with hz | hz | hz
  · have hd : decide (z < 0) = true := by simpa using hz
    rw [hd]
    cases h : roundNat z.natAbs 1 with
    | none => simp [JSNum.gtZero]; omega
    | some k =>
      simp only [JSNum.gtZero, if_true, decide_eq_true_eq]
      omega
  · subst hz
    simp [roundNat_zero, JSNum.gtZero]
  · have hd : decide (z < 0) = false := by simpa using le_of_lt hz
    rw [hd]
    cases h : roundNat z.natAbs 1 with
    | none => simp [JSNum.gtZero]; omega
    | some k =>
      have hk := roundNat_pos z.natAbs k (by omega) h
      simp only [JSNum.gtZero, decide_eq_true_eq]
      simp
      omega

/-- On Numbers that are not `NaN`, the difference `y - x` is positive exactly when `y` is
not below or equal to `x`. -/
theorem gtZero_sub_iff (x y : JSNum) (hx : x.isNaN = false) (hy : y.isNaN = false) :
    (y.sub x).gtZero = true ↔ ¬ numLe y x := by
  cases x with
  | nan => simp [JSNum.isNaN] at hx
  | inf t =>
    cases y with
    | nan => simp [JSNum.isNaN] at hy
    | inf s => cases s <;> cases t <;> simp [JSNum.sub, JSNum.neg, JSNum.add, JSNum.gtZero, numLe]
    | fin b => cases t <;> simp [JSNum.sub, JSNum.neg, JSNum.add, JSNum.gtZero, numLe]
  | fin a =>
    cases y with
    | nan => simp [JSNum.isNaN] at hy
    | inf s => cases s <;> simp [JSNum.sub, JSNum.neg, JSNum.add, JSNum.gtZero, numLe]
    | fin b =>
      simp only [JSNum.sub, JSNum.neg, JSNum.add, numLe, gtZero_ofUnits]
      omega

theorem gtZero_sub_self (x : JSNum) : (x.sub x).gtZero = false := by
  cases x with
  | nan => rfl
  | inf s => cases s <;> simp [JSNum.sub, JSNum.neg, JSNum.add, JSNum.gtZero]
  | fin a =>
    have h := gtZero_ofUnits (a + -a)
    simp only [JSNum.sub, JSNum.neg, JSNum.add]
    cases hg : (ofUnits (a + -a)).gtZero with
    | false => rfl
    | true => rw [hg] at h; have := h.mp rfl; omega

theorem numLe_total (x y : JSNum) (hx : x.isNaN = false) (hy : y.isNaN = false) :
    numLe x y ∨ numLe y x := by
  cases x with
  | nan => simp [JSNum.isNaN] at hx
  | inf t =>
    cases y with
    | nan => simp [JSNum.isNaN] at hy
    | inf s => cases s <;> cases t <;> simp [numLe]
    | fin b => cases t <;> simp [numLe]
  | fin a =>
    cases y with
    | nan => simp [JSNum.isNaN] at hy
    | inf s => cases s <;> simp [numLe]
    | fin b => simp only [numLe]; omega

theorem numLe_trans (x y z : JSNum) (h1 : numLe x y) (h2 : numLe y z) : numLe x z := by
  cases x with
  | nan => simp [numLe] at h1
  | inf s =>
    cases y with
    | nan => simp [numLe] at h1
    | inf t =>
      cases z with
      | nan => simp [numLe] at h2
      | inf u => cases s <;> cases t <;> cases u <;> simp_all [numLe]
      | fin c => cases s <;> cases t <;> simp_all [numLe]
    | fin b =>
      cases z with
      | nan => simp [numLe] at h2
      | inf u => cases s <;> cases u <;> simp_all [numLe]
      | fin c => cases s <;> simp_all [numLe]
  | fin a =>
    cases y with
    | nan => simp [numLe] at h1
    | inf t =>
      cases z with
      | nan => simp [numLe] at h2
      | inf u => cases t <;> cases u <;> simp_all [numLe]
      | fin c => cases t <;> simp_all [numLe]
    | fin b =>
      cases z with
      | nan => simp [numLe] at h2
      | inf u => cases u <;> simp_all [numLe]
      | fin c => simp only [numLe] at *; omega

theorem mul_isNaN_of_finite (x y : JSNum) (hx : x.isFinite = true) (hy : y.isFinite = true) :
    (x.mul y).isNaN = false := by
  cases x with
  | nan => simp [JSNum.isFinite] at hx
  | inf s => simp [JSNum.isFinite] at hx
  | fin a =>
    cases y with
    | nan => simp [JSNum.isFinite] at hy
    | inf s => simp [JSNum.isFinite] at hy
    | fin b =>
      simp only [JSNum.mul, ofRat]
      split <;> rfl

/-! ## The sort orders by descending cost and is stable -/

theorem orderedInsert_sorted (a : DeviceWithCost) : ∀ l : List DeviceWithCost,
    (∀ x ∈ a :: l, x.cost.isNaN = false) →
    l.Pairwise (fun x y => numLe y.cost x.cost) →
    (orderedInsert compareCost a l).Pairwise (fun x y => numLe y.cost x.cost) := by
  intro l
  induction l with
  | nil => intro _ _; simp [orderedInsert]
  | cons b l ih =>
    intro hn hs
    have ha : a.cost.isNaN = false := hn a (List.mem_cons_self _ _)
    have hb : b.cost.isNaN = false := hn b (List.mem_cons_of_mem _ (List.mem_cons_self _ _))
    rw [List.pairwise_cons] at hs
    unfold orderedInsert
    split
    · rename_i hgt
      have hnle : ¬ numLe b.cost a.cost := (gtZero_sub_iff a.cost b.cost ha hb).mp hgt
      have hab : numLe a.cost b.cost := (numLe_total a.cost b.cost ha hb).resolve_right hnle
      rw [List.pairwise_cons]
      constructor
      · intro y hy
        rcases List.mem_cons.mp ((perm_orderedInsert compareCost a l).mem_iff.mp hy) with e | e
        · rw [e]; exact hab
        · exact hs.1 y e
      · apply ih _ hs.2
        intro x hx
        rcases List.mem_cons.mp hx with e | e
        · rw [e]; exact ha
        · exact hn x (List.mem_cons_of_mem _ (List.mem_cons_of_mem _ e))
    · rename_i hgt
      have hba : numLe b.cost a.cost := by
        by_contra hc
        exact hgt ((gtZero_sub_iff a.cost b.cost ha hb).mpr hc)
      rw [List.pairwise_cons]
      refine ⟨?_, List.pairwise_cons.mpr hs⟩
      intro y hy
      rcases List.mem_cons.mp hy with e | e
      · rw [e]; exact hba
      · exact numLe_trans _ _ _ (hs.1 y e) hba

theorem arraySort_sorted : ∀ l : List DeviceWithCost,
    (∀ x ∈ l, x.cost.isNaN = false) →
    (arraySort compareCost l).Pairwise (fun x y => numLe y.cost x.cost) := by
  intro l
  induction l with
  | nil => intro _; simp [arraySort]
  | cons a l ih =>
    intro hn
    unfold arraySort
    apply orderedInsert_sorted
    · intro x hx
      rcases List.mem_cons.mp hx with e | e
      · rw [e]; exact hn a (List.mem_cons_self _ _)
      · exact hn x (List.mem_cons_of_mem _ ((perm_arraySort compareCost l).mem_iff.mp e))
    · exact ih (fun x hx => hn x (List.mem_cons_of_mem _ hx))

theorem filter_cost_orderedInsert (c : JSNum) (a : DeviceWithCost) : ∀ l : List DeviceWithCost,
    (orderedInsert compareCost a l).filter (fun x => decide (x.cost = c)) =
      (a :: l).filter (fun x => decide (x.cost = c)) := by
  intro l
  induction l with
  | nil => simp [orderedInsert]
  | cons b l ih =>
    unfold orderedInsert
    split
    · rename_i hgt
      have hne : b.cost ≠ a.cost := by
        intro e
        have := gtZero_sub_self a.cost
        rw [compareCost, e, this] at hgt
        exact absurd hgt (by simp)
      by_cases hb : b.cost = c
      · have hac : a.cost ≠ c := fun e => hne (hb.trans e.symm)
        rw [List.filter_cons_of_pos (by simpa using hb), ih,
          List.filter_cons_of_neg (by simpa using hac),
          List.filter_cons_of_neg (by simpa using hac),
          List.filter_cons_of_pos (by simpa using hb)]
      · rw [List.filter_cons_of_neg (by simpa using hb), ih]
        by_cases hac : a.cost = c
        · rw [List.filter_cons_of_pos (by simpa using hac),
            List.filter_cons_of_pos (by simpa using hac),
            List.filter_cons_of_neg (by simpa using hb)]
        · rw [List.filter_cons_of_neg (by simpa using hac),
            List.filter_cons_of_neg (by simpa using hac),
            List.filter_cons_of_neg (by simpa using hb)]
    · rfl

theorem filter_cost_arraySort (c : JSNum) : ∀ l : List DeviceWithCost,
    (arraySort compareCost l).filter (fun x => decide (x.cost = c)) =
      l.filter (fun x => decide (x.cost = c)) := by
  intro l
  induction l with
  | nil => simp [arraySort]
  | cons a l ih =>
    unfold arraySort
    rw [filter_cost_orderedInsert]
    by_cases ha : a.cost = c
    · rw [List.filter_cons_of_pos (by simpa using ha), List.filter_cons_of_pos (by simpa using ha), ih]
    · rw [List.filter_cons_of_neg (by simpa using ha), List.filter_cons_of_neg (by simpa using ha), ih]

/-! ## Reading back printed digits -/

theorem digitChar_props (d : Nat) (h : d < 10) :
    isDecDigit (digitChar d) = true ∧ digitVal (digitChar d) = d ∧
    isWhiteSpace (digitChar d) = false ∧ digitChar d ≠ '-' ∧ digitChar d ≠ '+' ∧
    digitChar d ≠ 'I' ∧ digitChar d ≠ '.' := by
  interval_cases d <;> decide

theorem scanDigits_nil (acc cnt : Nat) : scanDigits [] acc cnt = (acc, cnt, []) := rfl

theorem scanDigits_stop (c : Char) (r : List Char) (acc cnt : Nat) (h : isDecDigit c = false) :
    scanDigits (c :: r) acc cnt = (acc, cnt, c :: r) := by
  simp [scanDigits, h]

theorem scanDigits_digit (d : Nat) (h : d < 10) (r : List Char) (acc cnt : Nat) :
    scanDigits (digitChar d :: r) acc cnt = scanDigits r (acc * 10 + d) (cnt + 1) := by
  have hp := digitChar_props d h
  simp [scanDigits, hp.1, hp.2.1]

theorem scanDigits_fixedDigits (k : Nat) : ∀ (s : Nat) (rest : List Char) (acc cnt : Nat),
    scanDigits (fixedDigits k s ++ rest) acc cnt =
      scanDigits rest (acc * 10 ^ k + s % 10 ^ k) (cnt + k) := by
  induction k with
  | zero => intro s rest acc cnt; simp [fixedDigits, Nat.mod_one]
  | succ k ih =>
    intro s rest acc cnt
    have hd : s % 10 < 10 := Nat.mod_lt _ (by decide)
    rw [fixedDigits, List.append_assoc, ih, List.singleton_append, scanDigits_digit _ hd]
    congr 1
    · have h1 : s % 10 ^ (k + 1) = (s / 10 % 10 ^ k) * 10 + s % 10 := by
        rw [Nat.pow_succ, Nat.mul_comm (10 ^ k) 10, Nat.mod_mul, Nat.mul_comm, Nat.add_comm]
      rw [h1, Nat.pow_succ]
      ring

theorem scanDigits_zeros (j : Nat) : ∀ (rest : List Char) (acc cnt : Nat),
    scanDigits (List.replicate j '0' ++ rest) acc cnt = scanDigits rest (acc * 10 ^ j) (cnt + j) := by
  induction j with
  | zero => intro rest acc cnt; simp
  | succ j ih =>
    intro rest acc cnt
    have h0 : ('0' : Char) = digitChar 0 := by decide
    rw [List.replicate_succ, List.cons_append, h0, scanDigits_digit 0 (by decide), ← h0, ih]
    congr 1
    · rw [Nat.pow_succ]; ring
    · omega

theorem fixedDigits_head (k s : Nat) (rest : List Char) :
    ∃ d t, d < 10 ∧ fixedDigits (k + 1) s ++ rest = digitChar d :: t := by
  induction k generalizing s rest with
  | zero => exact ⟨s % 10, rest, Nat.mod_lt _ (by decide), by simp [fixedDigits]⟩
  | succ k ih =>
    obtain ⟨d, t, hd, ht⟩ := ih (s / 10) ([digitChar (s % 10)] ++ rest)
    refine ⟨d, t, hd, ?_⟩
    rw [fixedDigits, List.append_assoc, ht]

theorem lt_pow_decLenAux (f : Nat) : ∀ n : Nat, n ≤ f → n < 10 ^ decLenAux f n := by
  induction f with
  | zero => intro n hn; simp [decLenAux]; omega
  | succ f ih =>
    intro n hn
    unfold decLenAux
    split
    · simpa using ‹n < 10›
    · have h := ih (n / 10) (by omega)
      rw [Nat.pow_succ]
      omega

theorem lt_pow_decLen (n : Nat) : n < 10 ^ decLen n := lt_pow_decLenAux n n (Nat.le_refl _)

theorem decLenAux_pos (f n : Nat) : 0 < decLenAux f n := by
  cases f with
  | zero => simp [decLenAux]
  | succ f => unfold decLenAux; split <;> omega

theorem decLen_pos (n : Nat) : 0 < decLen n := decLenAux_pos n n

theorem stripInfinity_digit (d : Nat) (h : d < 10) (t : List Char) :
    stripInfinity (digitChar d :: t) = none := by
  have hp := (digitChar_props d h).2.2.2.2.2.1
  simp [stripInfinity, hp]

theorem scanSign_digit (d : Nat) (h : d < 10) (t : List Char) :
    scanSign (digitChar d :: t) = (false, digitChar d :: t) := by
  have hp := digitChar_props d h
  simp [scanSign, hp.2.2.2.1, hp.2.2.2.2.1]

theorem scanExponent_nil : scanExponent [] = (0, []) := rfl

theorem scanFraction_nil (v : Nat) : scanFraction v [] = none := rfl

theorem scanFraction_dot (v : Nat) (r : List Char) :
    scanFraction v ('.' :: r) = some (scanDigits r v 0) := by
  simp [scanFraction]

theorem scanFraction_e (v : Nat) (r : List Char) : scanFraction v ('e' :: r) = none := by
  simp [scanFraction]

theorem scanExponent_printed (minus : Bool) (L x : Nat) (hL : 0 < L) (hx : x < 10 ^ L) :
    scanExponent ('e' :: (if minus then '-' else '+') :: fixedDigits L x) =
      (if minus then -(x : Int) else (x : Int), []) := by
  have hs : scanSign ((if minus then '-' else '+') :: fixedDigits L x) =
      (minus, fixedDigits L x) := by
    cases minus <;> simp [scanSign]
  have hd : scanDigits (fixedDigits L x) 0 0 = (x, L, []) := by
    have := scanDigits_fixedDigits L x [] 0 0
    rw [List.append_nil] at this
    rw [this, scanDigits_nil, Nat.mod_eq_of_lt hx]
    simp
  have hL0 : L ≠ 0 := Nat.pos_iff_ne_zero.mp hL
  simp [scanExponent, hs, hd, hL0]

theorem scanUnsigned_int (cs rest : List Char) (v c : Nat) (h0 : stripInfinity cs = none)
    (hd : scanDigits cs 0 0 = (v, c, rest)) (hc : c ≠ 0) (hf : scanFraction v rest = none) :
    scanUnsigned cs = some (.dec v (scanExponent rest).1, (scanExponent rest).2) := by
  simp [scanUnsigned, h0, hd, hf, hc]

theorem scanUnsigned_frac (cs r rest : List Char) (v c v1 c1 : Nat)
    (h0 : stripInfinity cs = none) (hd : scanDigits cs 0 0 = (v, c, '.' :: r))
    (hf : scanDigits r v 0 = (v1, c1, rest)) (hc : c ≠ 0) :
    scanUnsigned cs =
      some (.dec v1 ((scanExponent rest).1 - (c1 : Int)), (scanExponent rest).2) := by
  simp [scanUnsigned, h0, hd, hf, hc, scanFraction_dot]

theorem ofDecimal_natCast (neg : Bool) (M e : Nat) :
    ofDecimal neg M (e : Int) = ofRat neg (M * 10 ^ e * unit) 1 := rfl

theorem ofRat_true (N D : Nat) : ofRat true N D = (ofRat false N D).neg := by
  unfold ofRat
  cases roundNat N D <;> simp [JSNum.neg]

theorem ofDecimal_true (M : Nat) (E : Int) :
    ofDecimal true M E = (ofDecimal false M E).neg := by
  cases E <;> simp [ofDecimal, ofRat_true]

theorem dot_not_digit : isDecDigit '.' = false := by decide

theorem e_not_digit : isDecDigit 'e' = false := by decide

theorem zero_char : ('0' : Char) = digitChar 0 := by decide

theorem readsBack_integer (s k j : Nat) (hk : 0 < k) (hs : s < 10 ^ k) :
    ReadsBack (fixedDigits k s ++ List.replicate j '0') s (j : Int) := by
  obtain ⟨k1, rfl⟩ := Nat.exists_eq_succ_of_ne_zero (Nat.pos_iff_ne_zero.mp hk)
  obtain ⟨c, t, hc, ht⟩ := fixedDigits_head k1 s (List.replicate j '0')
  refine ⟨⟨s * 10 ^ j, 0, ?_, ?_⟩, c, t, hc, ht⟩
  · have hd : scanDigits (fixedDigits (k1 + 1) s ++ List.replicate j '0') 0 0 =
        (s * 10 ^ j, k1 + 1 + j, []) := by
      have h1 := scanDigits_fixedDigits (k1 + 1) s (List.replicate j '0' ++ []) 0 0
      rw [scanDigits_zeros, scanDigits_nil, Nat.mod_eq_of_lt hs] at h1
      rw [List.append_nil] at h1
      rw [h1]
      simp
    have h0 : stripInfinity (fixedDigits (k1 + 1) s ++ List.replicate j '0') = none := by
      rw [ht]; exact stripInfinity_digit c hc t
    have := scanUnsigned_int _ [] (s * 10 ^ j) (k1 + 1 + j) h0 hd (by omega) (scanFraction_nil _)
    rw [this, scanExponent_nil]
  · intro neg
    have h0 : ofDecimal neg (s * 10 ^ j) 0 = ofRat neg (s * 10 ^ j * 10 ^ 0 * unit) 1 :=
      ofDecimal_natCast neg (s * 10 ^ j) 0
    rw [h0, ofDecimal_natCast]
    simp

theorem readsBack_fraction (s a b : Nat) (ha : 0 < a) (hs : s < 10 ^ (a + b)) :
    ReadsBack (fixedDigits a (s / 10 ^ b) ++ '.' :: fixedDigits b (s % 10 ^ b)) s (-(b : Int)) := by
  obtain ⟨a1, rfl⟩ := Nat.exists_eq_succ_of_ne_zero (Nat.pos_iff_ne_zero.mp ha)
  obtain ⟨c, t, hc, ht⟩ := fixedDigits_head a1 (s / 10 ^ b) ('.' :: fixedDigits b (s % 10 ^ b))
  have hq : s / 10 ^ b < 10 ^ (a1 + 1) := by
    rw [Nat.div_lt_iff_lt_mul (Nat.pos_pow_of_pos _ (by decide)), ← Nat.pow_add]
    exact hs
  refine ⟨⟨s, ((0 : Int) - (b : Int)), ?_, ?_⟩, c, t, hc, ht⟩
  · have hd : scanDigits
          (fixedDigits (a1 + 1) (s / 10 ^ b) ++ '.' :: fixedDigits b (s % 10 ^ b)) 0 0 =
        (s / 10 ^ b, a1 + 1, '.' :: fixedDigits b (s % 10 ^ b)) := by
      rw [scanDigits_fixedDigits, scanDigits_stop _ _ _ _ dot_not_digit, Nat.mod_eq_of_lt hq]
      simp
    have hf : scanDigits (fixedDigits b (s % 10 ^ b)) (s / 10 ^ b) 0 = (s, b, []) := by
      have h1 := scanDigits_fixedDigits b (s % 10 ^ b) [] (s / 10 ^ b) 0
      rw [List.append_nil, scanDigits_nil, Nat.mod_mod, Nat.div_add_mod'] at h1
      rw [h1]
      simp
    have h0 : stripInfinity
        (fixedDigits (a1 + 1) (s / 10 ^ b) ++ '.' :: fixedDigits b (s % 10 ^ b)) = none := by
      rw [ht]; exact stripInfinity_digit c hc t
    have := scanUnsigned_frac _ _ [] _ _ _ _ h0 hd hf (Nat.succ_ne_zero a1)
    rw [this, scanExponent_nil]
  · intro neg
    rw [Int.zero_sub]

theorem readsBack_small (s k j : Nat) (hs : s < 10 ^ k) :
    ReadsBack ('0' :: '.' :: (List.replicate j '0' ++ fixedDigits k s)) s (-((j + k : Nat) : Int)) := by
  refine ⟨⟨s, ((0 : Int) - ((j + k : Nat) : Int)), ?_, ?_⟩, 0, _, by decide, by rw [zero_char]⟩
  · have hd : scanDigits ('0' :: '.' :: (List.replicate j '0' ++ fixedDigits k s)) 0 0 =
        (0, 1, '.' :: (List.replicate j '0' ++ fixedDigits k s)) := by
      rw [zero_char, scanDigits_digit 0 (by decide), scanDigits_stop _ _ _ _ dot_not_digit]
    have hf : scanDigits (List.replicate j '0' ++ fixedDigits k s) 0 0 = (s, j + k, []) := by
      have h1 := scanDigits_zeros j (fixedDigits k s ++ []) 0 0
      rw [scanDigits_fixedDigits, scanDigits_nil, Nat.mod_eq_of_lt hs, List.append_nil] at h1
      rw [h1]
      simp
    have h0 : stripInfinity ('0' :: '.' :: (List.replicate j '0' ++ fixedDigits k s)) = none := by
      rw [zero_char]; exact stripInfinity_digit 0 (by decide) _
    have := scanUnsigned_frac _ _ [] _ _ _ _ h0 hd hf (Nat.succ_ne_zero 0)
    rw [this, scanExponent_nil]
  · intro neg
    rw [Int.zero_sub]

theorem scanExponent_ofInt (e : Int) :
    scanExponent ('e' :: (if e < 0 then '-' else '+') ::
      fixedDigits (decLen e.natAbs) e.natAbs) = (e, []) := by
  by_cases he : e < 0
  · have h := scanExponent_printed true (decLen e.natAbs) e.natAbs (decLen_pos _) (lt_pow_decLen _)
    simp only [if_true] at h
    rw [if_pos he, h]
    congr 1
    omega
  · have h := scanExponent_printed false (decLen e.natAbs) e.natAbs (decLen_pos _) (lt_pow_decLen _)
    simp only [Bool.false_eq_true, if_false] at h
    rw [if_neg he, h]
    congr 1
    omega

theorem readsBack_exp_one (s : Nat) (e : Int) (hs : s < 10 ^ 1) :
    ReadsBack (fixedDigits 1 s ++ 'e' :: (if e < 0 then '-' else '+') ::
      fixedDigits (decLen e.natAbs) e.natAbs) s e := by
  obtain ⟨c, t, hc, ht⟩ := fixedDigits_head 0 s
    ('e' :: (if e < 0 then '-' else '+') :: fixedDigits (decLen e.natAbs) e.natAbs)
  refine ⟨⟨s, e, ?_, fun _ => rfl⟩, c, t, hc, ht⟩
  have hd : scanDigits (fixedDigits 1 s ++ 'e' :: (if e < 0 then '-' else '+') ::
        fixedDigits (decLen e.natAbs) e.natAbs) 0 0 =
      (s, 1, 'e' :: (if e < 0 then '-' else '+') :: fixedDigits (decLen e.natAbs) e.natAbs) := by
    rw [scanDigits_fixedDigits, scanDigits_stop _ _ _ _ e_not_digit, Nat.mod_eq_of_lt hs]
    simp
  have h0 : stripInfinity (fixedDigits 1 s ++ 'e' :: (if e < 0 then '-' else '+') ::
        fixedDigits (decLen e.natAbs) e.natAbs) = none := by
    rw [ht]; exact stripInfinity_digit c hc t
  have := scanUnsigned_int _ _ s 1 h0 hd (by decide) (scanFraction_e _ _)
  rw [this, scanExponent_ofInt]

theorem readsBack_exp (s b : Nat) (e : Int) (hs : s < 10 ^ (1 + b)) :
    ReadsBack (fixedDigits 1 (s / 10 ^ b) ++ '.' :: (fixedDigits b (s % 10 ^ b) ++
      'e' :: (if e < 0 then '-' else '+') :: fixedDigits (decLen e.natAbs) e.natAbs))
      s (e - (b : Int)) := by
  obtain ⟨c, t, hc, ht⟩ := fixedDigits_head 0 (s / 10 ^ b) ('.' :: (fixedDigits b (s % 10 ^ b) ++
      'e' :: (if e < 0 then '-' else '+') :: fixedDigits (decLen e.natAbs) e.natAbs))
  have hq : s / 10 ^ b < 10 ^ 1 := by
    rw [Nat.div_lt_iff_lt_mul (Nat.pos_pow_of_pos _ (by decide)), ← Nat.pow_add]
    exact hs
  refine ⟨⟨s, e - (b : Int), ?_, fun _ => rfl⟩, c, t, hc, ht⟩
  have hd : scanDigits (fixedDigits 1 (s / 10 ^ b) ++ '.' :: (fixedDigits b (s % 10 ^ b) ++
        'e' :: (if e < 0 then '-' else '+') :: fixedDigits (decLen e.natAbs) e.natAbs)) 0 0 =
      (s / 10 ^ b, 1, '.' :: (fixedDigits b (s % 10 ^ b) ++
        'e' :: (if e < 0 then '-' else '+') :: fixedDigits (decLen e.natAbs) e.natAbs)) := by
    rw [scanDigits_fixedDigits, scanDigits_stop _ _ _ _ dot_not_digit, Nat.mod_eq_of_lt hq]
    simp
  have hf : scanDigits (fixedDigits b (s % 10 ^ b) ++
        'e' :: (if e < 0 then '-' else '+') :: fixedDigits (decLen e.natAbs) e.natAbs)
        (s / 10 ^ b) 0 =
      (s, b, 'e' :: (if e < 0 then '-' else '+') :: fixedDigits (decLen e.natAbs) e.natAbs) := by
    rw [scanDigits_fixedDigits, scanDigits_stop _ _ _ _ e_not_digit, Nat.mod_mod,
      Nat.div_add_mod']
    simp
  have h0 : stripInfinity (fixedDigits 1 (s / 10 ^ b) ++ '.' :: (fixedDigits b (s % 10 ^ b) ++
        'e' :: (if e < 0 then '-' else '+') :: fixedDigits (decLen e.natAbs) e.natAbs)) = none := by
    rw [ht]; exact stripInfinity_digit c hc t
  have := scanUnsigned_frac _ _ _ _ _ _ _ h0 hd hf (by decide)
  rw [this, scanExponent_ofInt]

theorem readsBack_formatDigits (d : Digits) (hk : 0 < d.k) (hs : d.s < 10 ^ d.k) :
    ReadsBack (formatDigits d) d.s (d.n - (d.k : Int)) := by
  obtain ⟨s, k, n⟩ := d
  simp only at hk hs ⊢
  unfold formatDigits
  dsimp only
  split_ifs with h1 h2 h3 h4
  · have hE : n - (k : Int) = (((n - (k : Int)).toNat : Nat) : Int) :=
      (Int.toNat_of_nonneg (by omega)).symm
    rw [hE]
    simpa using readsBack_integer s k (n - (k : Int)).toNat hk hs
  · have hn : (n.toNat : Int) = n := Int.toNat_of_nonneg (by omega)
    have hlt : n.toNat < k := by omega
    have hE : n - (k : Int) = -(((k - n.toNat : Nat)) : Int) := by omega
    rw [hE]
    apply readsBack_fraction s n.toNat (k - n.toNat) (by omega)
    have : n.toNat + (k - n.toNat) = k := by omega
    rw [this]; exact hs
  · have hE : n - (k : Int) = -((((-n).toNat + k : Nat)) : Int) := by omega
    rw [hE]
    exact readsBack_small s k (-n).toNat hs
  · subst h4
    have hE : n - ((1 : Nat) : Int) = n - 1 := by omega
    have h := readsBack_exp_one s (n - 1) hs
    rw [if_pos ‹n - 1 < 0›] at h
    rw [hE]
    exact h
  · subst h4
    have hE : n - ((1 : Nat) : Int) = n - 1 := by omega
    have h := readsBack_exp_one s (n - 1) hs
    rw [if_neg ‹¬ n - 1 < 0›] at h
    rw [hE]
    exact h
  · have hE : n - (k : Int) = (n - 1) - (((k - 1 : Nat)) : Int) := by omega
    have hk1 : 1 + (k - 1) = k := by omega
    have h := readsBack_exp s (k - 1) (n - 1) (by rw [hk1]; exact hs)
    rw [if_pos ‹n - 1 < 0›] at h
    rw [hE]
    exact h
  · have hE : n - (k : Int) = (n - 1) - (((k - 1 : Nat)) : Int) := by omega
    have hk1 : 1 + (k - 1) = k := by omega
    have h := readsBack_exp s (k - 1) (n - 1) (by rw [hk1]; exact hs)
    rw [if_neg ‹¬ n - 1 < 0›] at h
    rw [hE]
    exact h

/-! ## Rounding twice is rounding once -/

theorem lt_two_pow_ilog2Aux (l : Nat) : ∀ n : Nat, n < 2 ^ 2 ^ l → n < 2 ^ (ilog2Aux l n + 1) := by
  induction l with
  | zero => intro n hn; simpa [ilog2Aux] using hn
  | succ l ih =>
    intro n hn
    unfold ilog2Aux
    split
    · have hq : n / 2 ^ 2 ^ l < 2 ^ 2 ^ l := by
        rw [Nat.div_lt_iff_lt_mul (two_pow_pos _), ← Nat.pow_add]
        have : 2 ^ l + 2 ^ l = 2 ^ (l + 1) := by rw [Nat.pow_succ]; ring
        rw [this]; exact hn
      have h := ih _ hq
      rw [Nat.div_lt_iff_lt_mul (two_pow_pos _), ← Nat.pow_add] at h
      have e : ilog2Aux l (n / 2 ^ 2 ^ l) + 1 + 2 ^ l = 2 ^ l + ilog2Aux l (n / 2 ^ 2 ^ l) + 1 := by
        ring
      rw [e] at h; exact h
    · exact ih n (Nat.lt_of_not_le ‹¬ 2 ^ 2 ^ l ≤ n›)

theorem overflowBound_lt : overflowBound < 2 ^ 2 ^ 12 := by decide

theorem roundHalfEven_le (N Ds : Nat) : roundHalfEven N Ds ≤ N / Ds + 1 := by
  unfold roundHalfEven
  split <;> omega

theorem roundHalfEven_of_dvd (k Ds : Nat) (hD : 0 < Ds) (h : Ds ∣ k) :
    roundHalfEven k Ds * Ds = k := by
  have hm : k % Ds = 0 := Nat.mod_eq_zero_of_dvd h
  unfold roundHalfEven
  rw [hm]
  have : ¬ (Ds < 2 * 0 ∨ 2 * 0 = Ds ∧ k / Ds % 2 = 1) := by omega
  rw [if_neg this]
  exact Nat.div_mul_cancel h

/-- The quotient taken by `roundNat` has fewer than 54 bits. -/
theorem div_shiftOf_lt (q : Nat) (hq : q < overflowBound) : q / 2 ^ shiftOf q < 2 ^ 53 := by
  unfold shiftOf
  split
  · simpa using ‹q < 2 ^ 53›
  · rename_i h
    have hq2 : q < 2 ^ (ilog2 q + 1) :=
      lt_two_pow_ilog2Aux 12 q (lt_trans hq overflowBound_lt)
    have hL : 53 ≤ ilog2 q := by
      by_contra hc
      have h1 : ilog2 q + 1 ≤ 53 := by omega
      exact h (lt_of_lt_of_le hq2 (Nat.pow_le_pow_right (by decide) h1))
    rw [Nat.div_lt_iff_lt_mul (two_pow_pos _), ← Nat.pow_add]
    have e : 53 + (ilog2 q - 52) = ilog2 q + 1 := by omega
    rw [e]; exact hq2

theorem roundNat_grid (N D k : Nat) (h : roundNat N D = some k) :
    ∃ m s, k = m * 2 ^ s ∧ m ≤ 2 ^ 53 := by
  have hk := (roundNat_eq_some N D k h).1
  have hq : N / D < overflowBound := by
    unfold roundNat at h
    split at h
    · exact absurd h (by simp)
    · exact Nat.lt_of_not_le ‹_›
  refine ⟨_, _, hk, ?_⟩
  have h1 := roundHalfEven_le N (D * 2 ^ shiftOf (N / D))
  have h2 : N / (D * 2 ^ shiftOf (N / D)) = N / D / 2 ^ shiftOf (N / D) :=
    (Nat.div_div_eq_div_mul _ _ _).symm
  have h3 := div_shiftOf_lt (N / D) hq
  omega

theorem two_pow_shiftOf_dvd (m s : Nat) (hm : m ≤ 2 ^ 53) (hpos : 0 < m * 2 ^ s) :
    2 ^ shiftOf (m * 2 ^ s) ∣ m * 2 ^ s := by
  unfold shiftOf
  split
  · simp
  · rename_i hge
    have hlow : 2 ^ ilog2 (m * 2 ^ s) ≤ m * 2 ^ s := two_pow_ilog2Aux_le 12 _ hpos
    rcases Nat.lt_or_ge m (2 ^ 53) with hlt | hge2
    · have hub : m * 2 ^ s < 2 ^ (53 + s) := by
        rw [Nat.pow_add]; exact Nat.mul_lt_mul_of_pos_right hlt (two_pow_pos _)
      have hL : ilog2 (m * 2 ^ s) < 53 + s :=
        (Nat.pow_lt_pow_iff_right (by decide)).mp (lt_of_le_of_lt hlow hub)
      exact Dvd.dvd.mul_left (Nat.pow_dvd_pow 2 (by omega)) m
    · have hm2 : m = 2 ^ 53 := Nat.le_antisymm hm hge2
      rw [hm2, ← Nat.pow_add] at hlow ⊢
      have hL : ilog2 (2 ^ (53 + s)) ≤ 53 + s :=
        (Nat.pow_le_pow_iff_right (by decide)).mp hlow
      exact Nat.pow_dvd_pow 2 (by omega)

theorem roundNat_of_grid (m s : Nat) (hm : m ≤ 2 ^ 53) (hb : m * 2 ^ s < overflowBound) :
    roundNat (m * 2 ^ s) 1 = some (m * 2 ^ s) := by
  rcases Nat.eq_zero_or_pos (m * 2 ^ s) with h0 | hpos
  · rw [h0]; exact roundNat_zero 1
  · have hdvd := two_pow_shiftOf_dvd m s hm hpos
    have hr := roundHalfEven_of_dvd (m * 2 ^ s) (2 ^ shiftOf (m * 2 ^ s)) (two_pow_pos _) hdvd
    unfold roundNat
    rw [Nat.div_one, Nat.one_mul, hr, if_neg (Nat.not_le_of_lt hb), if_neg (Nat.not_le_of_lt hb)]

theorem roundNat_idem (N D k : Nat) (h : roundNat N D = some k) : roundNat k 1 = some k := by
  obtain ⟨m, s, hk, hm⟩ := roundNat_grid N D k h
  have hb := (roundNat_eq_some N D k h).2
  rw [hk] at hb ⊢
  exact roundNat_of_grid m s hm hb

theorem roundHalfEven_scale (c N Ds : Nat) (hc : 0 < c) :
    roundHalfEven (c * N) (c * Ds) = roundHalfEven N Ds := by
  unfold roundHalfEven
  rw [Nat.mul_mod_mul_left, Nat.mul_div_mul_left _ _ hc]
  have h1 : c * Ds < 2 * (c * (N % Ds)) ↔ Ds < 2 * (N % Ds) := by
    rw [show 2 * (c * (N % Ds)) = c * (2 * (N % Ds)) by ring]
    exact Nat.mul_lt_mul_left hc
  have h2 : 2 * (c * (N % Ds)) = c * Ds ↔ 2 * (N % Ds) = Ds := by
    rw [show 2 * (c * (N % Ds)) = c * (2 * (N % Ds)) by ring]
    exact Nat.mul_left_cancel_iff hc
  simp only [h1, h2]

theorem roundNat_scale (c N D : Nat) (hc : 0 < c) : roundNat (c * N) (c * D) = roundNat N D := by
  unfold roundNat
  rw [Nat.mul_div_mul_left _ _ hc, Nat.mul_assoc, roundHalfEven_scale c N _ hc]

theorem representable_ofRat (neg : Bool) (N D : Nat) : Representable (ofRat neg N D) := by
  unfold ofRat
  cases h : roundNat N D with
  | none => trivial
  | some k =>
    have hi := roundNat_idem N D k h
    cases neg
    · simpa [Representable] using hi
    · simpa [Representable] using hi

theorem representable_ofDecimal (neg : Bool) (M : Nat) (E : Int) :
    Representable (ofDecimal neg M E) := by
  cases E <;> exact representable_ofRat _ _ _

theorem representable_parseFloat (s : String) : Representable (parseFloat s) := by
  unfold parseFloat
  split
  · trivial
  · rename_i neg lit rest _
    cases lit with
    | infinity => trivial
    | dec M E => exact representable_ofDecimal neg M E

/-! ## The printed digits denote the number -/

theorem admissible_spec (K : Nat) (d : Digits) (h : admissible K d = true) :
    0 < d.k ∧ d.s < 10 ^ d.k ∧ ofDecimal false d.s (d.n - (d.k : Int)) = .fin (K : Int) := by
  simp only [admissible, Bool.and_eq_true, decide_eq_true_eq] at h
  obtain ⟨⟨h1, h2⟩, h3⟩ := h
  refine ⟨?_, h2, h3⟩
  rcases Nat.eq_zero_or_pos d.k with h0 | hp
  · rw [h0] at h1 h2
    simp at h1 h2
    omega
  · exact hp

theorem pickDigits_admissible (K k : Nat) (d : Digits) (h : pickDigits K k = some d) :
    admissible K d = true := by
  unfold pickDigits at h
  split at h
  · injection h with h; rw [← h]; assumption
  · split at h
    · injection h with h; rw [← h]; assumption
    · exact absurd h (by simp)

theorem searchDigits_succ (K f k : Nat) :
    searchDigits K (f + 1) k =
      match pickDigits K k with
      | some d => some d
      | none => searchDigits K f (k + 1) := rfl

theorem searchDigits_zero (K k : Nat) : searchDigits K 0 k = none := rfl

theorem searchDigits_admissible (K : Nat) : ∀ (f k : Nat) (d : Digits),
    searchDigits K f k = some d → admissible K d = true := by
  intro f
  induction f with
  | zero =>
    intro k d h
    rw [searchDigits_zero] at h
    exact Option.noConfusion h
  | succ f ih =>
    intro k d h
    rw [searchDigits_succ] at h
    cases hp : pickDigits K k with
    | none => rw [hp] at h; exact ih _ _ h
    | some d1 =>
      rw [hp] at h
      injection h with h
      rw [← h]
      exact pickDigits_admissible K k d1 hp

theorem ofDecimal_negSucc (neg : Bool) (M e : Nat) :
    ofDecimal neg M (Int.negSucc e) = ofRat neg (M * unit) (10 ^ (e + 1)) := rfl

theorem exactDigits_value (K : Nat) (hK : roundNat K 1 = some K) :
    ofDecimal false (K * 5 ^ 1074) (Int.negSucc 1073) = .fin (K : Int) := by
  have e1 : K * 5 ^ 1074 * unit = 10 ^ (1073 + 1) * K := by
    have : (10 : Nat) ^ (1073 + 1) = 5 ^ 1074 * 2 ^ 1074 := by rw [← Nat.mul_pow]
    rw [this, unit]; ring
  have hsc := roundNat_scale (10 ^ (1073 + 1)) K 1 (Nat.pos_pow_of_pos _ (by decide))
  rw [Nat.mul_one] at hsc
  rw [ofDecimal_negSucc, e1, ofRat, hsc, hK]
  simp

theorem shortestDigits_spec (K : Nat) (hK : roundNat K 1 = some K) :
    0 < (shortestDigits K).k ∧ (shortestDigits K).s < 10 ^ (shortestDigits K).k ∧
    ofDecimal false (shortestDigits K).s ((shortestDigits K).n - ((shortestDigits K).k : Int)) =
      .fin (K : Int) := by
  unfold shortestDigits
  split
  · rename_i d hd
    exact admissible_spec K d (searchDigits_admissible K 17 1 d hd)
  · refine ⟨decLen_pos _, lt_pow_decLen _, ?_⟩
    have hE : (exactDigits K).n - ((exactDigits K).k : Int) = Int.negSucc 1073 := by
      simp only [exactDigits]
      rw [Int.negSucc_eq]
      omega
    rw [hE]
    exact exactDigits_value K hK

/-! ## Printing a Number and parsing it back -/

theorem parseFloat_mk_digits (cs : List Char) (s : Nat) (E : Int) (h : ReadsBack cs s E) :
    parseFloat (String.mk cs) = ofDecimal false s E ∧
    parseFloat (String.mk ('-' :: cs)) = ofDecimal true s E := by
  obtain ⟨⟨M, F, hscan, hval⟩, c, t, hc, hcs⟩ := h
  have hp := digitChar_props c hc
  constructor
  · have h1 : (String.mk cs).toList.dropWhile isWhiteSpace = cs := by
      show cs.dropWhile isWhiteSpace = cs
      rw [hcs, List.dropWhile_cons_of_neg (by simp [hp.2.2.1])]
    have h2 : scanSign cs = (false, cs) := by rw [hcs]; exact scanSign_digit c hc t
    unfold parseFloat
    rw [h1]
    simp only [scanSigned, h2, hscan, litValue]
    exact hval false
  · have h1 : (String.mk ('-' :: cs)).toList.dropWhile isWhiteSpace = '-' :: cs := by
      show ('-' :: cs).dropWhile isWhiteSpace = '-' :: cs
      rw [List.dropWhile_cons_of_neg (by decide)]
    have h2 : scanSign ('-' :: cs) = (true, cs) := by simp [scanSign]
    unfold parseFloat
    rw [h1]
    simp only [scanSigned, h2, hscan, litValue]
    exact hval true

/-- Printing a Number with `String` and reading the text with `parseFloat` gives the Number
back. -/
theorem parseFloat_numToString (v : JSNum) (h : Representable v) :
    parseFloat (numToString v) = v := by
  cases v with
  | nan => decide
  | inf s => cases s <;> decide
  | fin z =>
    have hK : roundNat z.natAbs 1 = some z.natAbs := h
    have hs := shortestDigits_spec z.natAbs hK
    have hrb := readsBack_formatDigits (shortestDigits z.natAbs) hs.1 hs.2.1
    have hp := parseFloat_mk_digits _ _ _ hrb
    simp only [numToString]
    split_ifs with h0 hneg
    · rw [h0]; decide
    · rw [hp.2, ofDecimal_true, hs.2.2]
      simp only [JSNum.neg]
      congr 1
      omega
    · rw [hp.1, hs.2.2]
      congr 1
      omega

theorem numToString_ne_empty (v : JSNum) (h : Representable v) (hn : v.isNaN = false) :
    numToString v ≠ "" := by
  intro he
  have h1 := parseFloat_numToString v h
  rw [he] at h1
  have h2 : parseFloat "" = .nan := by decide
  rw [h2] at h1
  rw [← h1] at hn
  simp [JSNum.isNaN] at hn

/-! ## The claims -/

/-- C1: the total energy is the left-to-right sum of the device energies, a missing or
non-numeric energy counted as 0, and the total cost is that sum multiplied by the rate, for
every device list and every rate; the rendered page shows exactly these two numbers. -/
theorem totalCost_is_energy_sum_times_rate (userData : List Device) (r : JSNum) :
    totalEnergyKwh userData = specSum (userData.map specEnergy) ∧
    totalCost userData r = (specSum (userData.map specEnergy)).mul r ∧
    ∀ (w : World) (d : Device), Expenses w (some (d :: userData)) =
      View.page w.pricePerKwh w.isEditingRate
        ((specSum ((d :: userData).map specEnergy)).mul w.pricePerKwh)
        (specSum ((d :: userData).map specEnergy)) (breakdown (d :: userData) w.pricePerKwh) := by
  refine ⟨totalEnergyKwh_eq_specSum userData, ?_, ?_⟩
  · rw [totalCost, totalEnergyKwh_eq_specSum]
  · intro w d
    simp only [Expenses, List.length_cons, Nat.succ_ne_zero, if_false, totalCost,
      totalEnergyKwh_eq_specSum]

/-- The worked example of the specification: energies 2, 3 and 1 at rate 50 give a total
energy of 6, a total cost of 300, the kitchen costs 150 and 100 and the bedroom cost 50. -/
theorem sampleDevices_totals :
    totalEnergyKwh sampleDevices = numLit 6 ∧ totalCost sampleDevices (numLit 50) = numLit 300 ∧
    (breakdown sampleDevices (numLit 50)).map (fun g => (g.room, g.devices.map (fun x => x.cost))) =
      [("Kitchen", [numLit 150, numLit 100]), ("Bedroom", [numLit 50])] := by
  decide

/-- C2: the room-wise breakdown partitions the device list: the devices of all cards
together are a permutation of the input, no two cards have the same room, every device of a
card has the room of the card as its location, and every input device is found in the card
of its own location. -/
theorem breakdown_partitions_devices (userData : List Device) (r : JSNum) :
    ((breakdown userData r).flatMap (fun g => g.devices.map (fun x => x.device))).Perm userData ∧
    ((breakdown userData r).map (fun g => g.room)).Nodup ∧
    (∀ g ∈ breakdown userData r, ∀ x ∈ g.devices, x.device.location = g.room) ∧
    (∀ d ∈ userData, ∃ g ∈ breakdown userData r,
      g.room = d.location ∧ d ∈ g.devices.map (fun x => x.device)) := by
  refine ⟨?_, ?_, ?_, ?_⟩
  · have h1 : (breakdown userData r).flatMap (fun g => g.devices.map (fun x => x.device)) =
        (locations userData).flatMap
          (fun room => (devicesWithCost userData r room).map (fun x => x.device)) := by
      simp [breakdown, List.flatMap_map]
    rw [h1]
    exact (List.Perm.flatMap_left _
      (fun room _ => devicesWithCost_devices_perm userData r room)).trans
      (perm_flatMap_filter _ userData (nodup_newSet _) (locations_cover userData))
  · rw [breakdown_rooms]
    exact nodup_newSet _
  · intro g hg x hx
    rw [mem_breakdown] at hg
    rw [hg.2, mem_devicesWithCost] at hx
    exact hx.2.1
  · intro d hd
    refine ⟨⟨d.location, devicesWithCost userData r d.location⟩, ?_, rfl, ?_⟩
    · rw [mem_breakdown]
      exact ⟨locations_cover userData d hd, rfl⟩
    · rw [(devicesWithCost_devices_perm userData r d.location).mem_iff]
      simp [roomDevices, hd]

/-- C8: the cards of the breakdown follow the list of distinct locations: each location of
the input occurs exactly once, no other location occurs, the locations are ordered by their
first occurrence in the input, and no card is empty. -/
theorem locations_distinct_in_first_seen_order (userData : List Device) (r : JSNum) :
    (breakdown userData r).map (fun g => g.room) = locations userData ∧
    (locations userData).Nodup ∧
    (∀ l, l ∈ locations userData ↔ ∃ d ∈ userData, d.location = l) ∧
    (locations userData).Pairwise (fun a b =>
      (userData.map (fun d => d.location)).indexOf a <
        (userData.map (fun d => d.location)).indexOf b) ∧
    (∀ g ∈ breakdown userData r, g.devices ≠ []) := by
  refine ⟨breakdown_rooms userData r, nodup_newSet _, mem_locations userData,
    newSet_firstSeen _, ?_⟩
  intro g hg
  rw [mem_breakdown] at hg
  obtain ⟨d, hd, hl⟩ := (mem_locations userData g.room).mp hg.1
  have hmem : (⟨d, (energyOf d).mul r⟩ : DeviceWithCost) ∈ devicesWithCost userData r g.room :=
    (mem_devicesWithCost userData r g.room _).mpr ⟨hd, hl, rfl⟩
  rw [hg.2]
  exact List.ne_nil_of_mem hmem

/-- C9 as stated fails: the boolean `true` is not a numeric value, yet a device whose energy
is `true` counts with energy 1, not 0: the total energy is 1 and at rate 50 its cost is 50. -/
theorem boolean_energy_counts_as_one :
    isNumeric (.bool true) = false ∧
    energyOf (sampleDevice (.bool true) "Kitchen") = numLit 1 ∧
    energyOf (sampleDevice (.bool true) "Kitchen") ≠ .fin 0 ∧
    totalEnergyKwh [sampleDevice (.bool true) "Kitchen"] = numLit 1 ∧
    (devicesWithCost [sampleDevice (.bool true) "Kitchen"] (numLit 50) "Kitchen").map
      (fun x => x.cost) = [numLit 50] := by
  decide

/-- C9, amended: a device whose energy does not convert to a number (`Number` gives `NaN`:
an absent field, a plain object, a text that is no numeric literal), or is `null` or `false`,
counts with energy 0: the running total receives `+ 0` for it, and in the card of its room it
is listed with the cost `0 * rate`; every function involved is total, so such a record cannot
make the computation fail. -/
theorem nonnumeric_energy_counts_as_zero (d : Device) (before after : List Device) (r : JSNum)
    (h : (Number d.energy).isNaN = true ∨ d.energy = .null ∨ d.energy = .bool false) :
    energyOf d = .fin 0 ∧
    totalEnergyKwh (before ++ d :: after) =
      after.foldl (fun sum device => sum.add (energyOf device))
        ((totalEnergyKwh before).add (.fin 0)) ∧
    (⟨d, (JSNum.fin 0).mul r⟩ : DeviceWithCost) ∈
      devicesWithCost (before ++ d :: after) r d.location ∧
    (∀ x ∈ devicesWithCost (before ++ d :: after) r d.location,
      x.device = d → x.cost = (JSNum.fin 0).mul r) := by
  have h0 : energyOf d = .fin 0 := by
    rcases h with h | h | h
    · rw [energyOf_eq_specEnergy, specEnergy, if_pos h]
    · rw [energyOf, h]; rfl
    · rw [energyOf, h]; rfl
  refine ⟨h0, ?_, ?_, ?_⟩
  · rw [totalEnergyKwh_append_cons, h0]
  · rw [mem_devicesWithCost]
    exact ⟨by simp, rfl, by rw [h0]⟩
  · intro x hx hxd
    rw [mem_devicesWithCost] at hx
    rw [hx.2.2, hxd, h0]

/-- Witness of C9: a device without an energy field, a device whose energy is the text `abc`
and a device whose energy is `null`. -/
theorem nonnumeric_energy_counts_as_zero_witness :
    energyOf (sampleDevice .undefined "Kitchen") = .fin 0 ∧
    energyOf (sampleDevice (.str "abc") "Kitchen") = .fin 0 ∧
    energyOf (sampleDevice .null "Kitchen") = .fin 0 :=
  ⟨(nonnumeric_energy_counts_as_zero (sampleDevice .undefined "Kitchen") [] [] (numLit 50)
      (Or.inl (by decide))).1,
   (nonnumeric_energy_counts_as_zero (sampleDevice (.str "abc") "Kitchen") sampleDevices []
      (numLit 50) (Or.inl (by decide))).1,
   (nonnumeric_energy_counts_as_zero (sampleDevice .null "Kitchen") [] sampleDevices
      (numLit 50) (Or.inr (Or.inl rfl))).1⟩

/-- C4: when the candidate text does not parse to a number, or parses to a negative number,
saving only raises the error notification: the rate, the store and the edit mode are
unchanged. -/
theorem updateRate_rejects_invalid_text (w : World) (candidateText : String)
    (h : (parseFloat candidateText).isNaN = true ∨ (parseFloat candidateText).ltZero = true) :
    updateRate w candidateText =
      { w with
        tempRate := candidateText
        toasts := w.toasts ++ [.error "Please enter a valid positive number for the rate."] } ∧
    (updateRate w candidateText).pricePerKwh = w.pricePerKwh ∧
    (updateRate w candidateText).localStorage = w.localStorage ∧
    (updateRate w candidateText).isEditingRate = w.isEditingRate := by
  have hc : ((parseFloat candidateText).isNaN || (parseFloat candidateText).ltZero) = true := by
    rcases h with h | h <;> simp [h]
  have : updateRate w candidateText =
      { w with
        tempRate := candidateText
        toasts := w.toasts ++ [.error "Please enter a valid positive number for the rate."] } := by
    simp only [updateRate, handleSaveRate, onChangeRate, hc, if_true]
  rw [this]
  exact ⟨rfl, rfl, rfl, rfl⟩

/-- Witness of C4: the texts `-5` and `abc` typed while editing, with the rate at its default
and an empty store. -/
theorem updateRate_rejects_invalid_text_witness :
    (updateRate (beginEdit (initialWorld [])) "-5").pricePerKwh = numLit 50 ∧
    (updateRate (beginEdit (initialWorld [])) "-5").localStorage = [] ∧
    (updateRate (beginEdit (initialWorld [])) "-5").isEditingRate = true ∧
    (updateRate (beginEdit (initialWorld [])) "abc").pricePerKwh = numLit 50 ∧
    (updateRate (beginEdit (initialWorld [])) "abc").localStorage = [] ∧
    (updateRate (beginEdit (initialWorld [])) "abc").isEditingRate = true :=
  ⟨(updateRate_rejects_invalid_text (beginEdit (initialWorld [])) "-5" (by decide)).2.1,
   (updateRate_rejects_invalid_text (beginEdit (initialWorld [])) "-5" (by decide)).2.2.1,
   (updateRate_rejects_invalid_text (beginEdit (initialWorld [])) "-5" (by decide)).2.2.2,
   (updateRate_rejects_invalid_text (beginEdit (initialWorld [])) "abc" (by decide)).2.1,
   (updateRate_rejects_invalid_text (beginEdit (initialWorld [])) "abc" (by decide)).2.2.1,
   (updateRate_rejects_invalid_text (beginEdit (initialWorld [])) "abc" (by decide)).2.2.2⟩

/-- The rate in force after a start: the saved text when it is not empty and parses to a
Number other than `NaN`, the default otherwise; the mount effect never writes to the store. -/
theorem loadPersistedRate_eq (store : Storage) :
    loadPersistedRate store =
      (match getItem store "energyRate" with
       | none => DEFAULT_PRICE_PER_KWH
       | some savedRate =>
         if savedRate = "" ∨ (parseFloat savedRate).isNaN = true then DEFAULT_PRICE_PER_KWH
         else parseFloat savedRate) ∧
    (loadSavedRate (initialWorld store)).localStorage = store := by
  unfold loadPersistedRate loadSavedRate
  cases h : getItem store "energyRate" with
  | none => simp [initialWorld, h]
  | some savedRate =>
    by_cases he : savedRate = ""
    · simp [initialWorld, h, he]
    · cases hn : (parseFloat savedRate).isNaN <;> simp [initialWorld, h, he, hn]

/-- C6, at the failing input: with the text `-5` saved under `energyRate` the rate in force
after the start is -5, not the default 50 (the store itself is left as it was). -/
theorem loadPersistedRate_negative_content :
    loadPersistedRate [("energyRate", "-5")] = (numLit 5).neg ∧
    loadPersistedRate [("energyRate", "-5")] ≠ DEFAULT_PRICE_PER_KWH ∧
    (loadSavedRate (initialWorld [("energyRate", "-5")])).localStorage = [("energyRate", "-5")] := by
  decide

/-- C7 as stated fails: with energies 0.1 and 0.2 at rate 50 the costs listed in the
breakdown are 10 and 5, their sum is 15, and the total cost shown is 15.000000000000002. -/
theorem sum_of_costs_differs_from_totalCost :
    breakdownCosts fractionalDevices (numLit 50) = [numLit 10, numLit 5] ∧
    specSum (breakdownCosts fractionalDevices (numLit 50)) = numLit 15 ∧
    specSum (fractionalDevices.map (fun d => (energyOf d).mul (numLit 50))) = numLit 15 ∧
    totalCost fractionalDevices (numLit 50) = parseFloat "15.000000000000002" ∧
    specSum (breakdownCosts fractionalDevices (numLit 50)) ≠
      totalCost fractionalDevices (numLit 50) := by
  decide

/-- C7, amended: every device of the breakdown carries the cost `energy * rate`, the costs of
all cards together are exactly the values `energy(d) * rate` of the input devices, and the
total cost shown is `totalEnergy * rate`. -/
theorem costs_are_energy_times_rate (userData : List Device) (r : JSNum) :
    (∀ g ∈ breakdown userData r, ∀ x ∈ g.devices, x.cost = (energyOf x.device).mul r) ∧
    (breakdownCosts userData r).Perm (userData.map (fun d => (energyOf d).mul r)) ∧
    totalCost userData r = (totalEnergyKwh userData).mul r := by
  refine ⟨?_, ?_, rfl⟩
  · intro g hg x hx
    rw [mem_breakdown] at hg
    rw [hg.2, mem_devicesWithCost] at hx
    exact hx.2.2
  · have h1 : breakdownCosts userData r =
        (locations userData).flatMap
          (fun room => (devicesWithCost userData r room).map (fun x => x.cost)) := by
      simp [breakdownCosts, breakdown, List.flatMap_map]
    have h2 : (locations userData).flatMap
          (fun room => (roomDevices userData room).map (fun d => (energyOf d).mul r)) =
        ((locations userData).flatMap (fun room => roomDevices userData room)).map
          (fun d => (energyOf d).mul r) := by
      simp [List.map_flatMap]
    rw [h1]
    refine (List.Perm.flatMap_left _
      (fun room _ => devicesWithCost_costs_perm userData r room)).trans ?_
    rw [h2]
    exact (perm_flatMap_filter _ userData (nodup_newSet _) (locations_cover userData)).map _

/-- C10 as stated fails: for an empty device list the component does not render a page with
zero totals and an empty breakdown, it renders the placeholder. -/
theorem empty_list_renders_no_totals :
    Expenses (initialWorld []) (some []) ≠
      View.page DEFAULT_PRICE_PER_KWH false (.fin 0) (.fin 0) [] ∧
    Expenses (initialWorld []) none ≠
      View.page DEFAULT_PRICE_PER_KWH false (.fin 0) (.fin 0) [] := by
  decide

/-- C10, amended: for an absent or empty device list the component renders the placeholder
(no totals, no breakdown) whatever the state; the totals and the breakdown themselves, taken
on the empty list, are `0`, `0 * rate` (which is `0` for every finite rate) and no card. -/
theorem empty_list_renders_placeholder (w : World) (r : JSNum) :
    Expenses w none = View.noData ∧ Expenses w (some []) = View.noData ∧
    totalEnergyKwh [] = .fin 0 ∧ totalCost [] r = (JSNum.fin 0).mul r ∧
    (∀ k : Int, totalCost [] (.fin k) = .fin 0) ∧
    locations [] = [] ∧ breakdown [] r = [] := by
  refine ⟨rfl, rfl, rfl, rfl, ?_, rfl, rfl⟩
  intro k
  show (JSNum.fin 0).mul (.fin k) = .fin 0
  simp [JSNum.mul, ofRat, roundNat_zero]

/-- C3 as stated fails: with the rate `Infinity` (the text `Infinity` passes both the loader
and the Save handler) a device of energy 0 has the cost `NaN`; the kitchen card lists the
costs `NaN`, `Infinity`, which are not in non-increasing order, and no arrangement of these
two costs is. -/
theorem nan_cost_cannot_be_ordered :
    parseFloat "Infinity" = .inf false ∧
    (devicesWithCost
      [sampleDevice (.num (numLit 0)) "Kitchen", sampleDevice (.num (numLit 1)) "Kitchen"]
      (.inf false) "Kitchen").map (fun x => x.cost) = [.nan, .inf false] ∧
    ¬ ((devicesWithCost
      [sampleDevice (.num (numLit 0)) "Kitchen", sampleDevice (.num (numLit 1)) "Kitchen"]
      (.inf false) "Kitchen").map (fun x => x.cost)).Pairwise (fun x y => numLe y x) ∧
    ¬ [JSNum.inf false, JSNum.nan].Pairwise (fun x y => numLe y x) := by
  have h : (devicesWithCost
      [sampleDevice (.num (numLit 0)) "Kitchen", sampleDevice (.num (numLit 1)) "Kitchen"]
      (.inf false) "Kitchen").map (fun x => x.cost) = [.nan, .inf false] := by decide
  refine ⟨by decide, h, ?_, ?_⟩
  · rw [h]; simp [numLe]
  · simp [numLe]

/-- C3, amended: in every card none of whose computed costs is `NaN` (in particular for
every finite rate and finite device energies) the devices are in order of non-increasing
cost, and for every cost value the devices of the card with that cost are listed in the
order they have in the input list. -/
theorem devicesWithCost_sorted_and_stable (userData : List Device) (r : JSNum) (g : RoomCard)
    (hg : g ∈ breakdown userData r)
    (hn : ∀ d ∈ userData, d.location = g.room → ((energyOf d).mul r).isNaN = false) :
    g.devices.Pairwise (fun x y => numLe y.cost x.cost) ∧
    ∀ c : JSNum, (g.devices.filter (fun x => decide (x.cost = c))).map (fun x => x.device) =
      userData.filter
        (fun d => decide (d.location = g.room) && decide ((energyOf d).mul r = c)) := by
  rw [mem_breakdown] at hg
  rw [hg.2]
  constructor
  · apply arraySort_sorted
    intro x hx
    simp only [roomDevices, List.mem_map, List.mem_filter, decide_eq_true_eq] at hx
    obtain ⟨d, ⟨hd, hl⟩, rfl⟩ := hx
    exact hn d hd hl
  · intro c
    rw [devicesWithCost, filter_cost_arraySort, roomDevices, List.filter_map, List.map_map,
      List.filter_filter]
    simp only [Function.comp_def, List.map_id']
    apply List.filter_congr
    intro d _
    rw [Bool.and_comm]

/-- Witness of C3: the worked example, where the kitchen devices with energies 2 and 3 at
rate 50 are listed with costs 150 and 100. -/
theorem devicesWithCost_sorted_and_stable_witness :
    (∀ d ∈ sampleDevices, d.location = "Kitchen" →
      ((energyOf d).mul (numLit 50)).isNaN = false) ∧
    (devicesWithCost sampleDevices (numLit 50) "Kitchen").map (fun x => x.cost) =
      [numLit 150, numLit 100] ∧
    (devicesWithCost sampleDevices (numLit 50) "Kitchen").Pairwise
      (fun x y => numLe y.cost x.cost) :=
  ⟨by decide, by decide,
   (devicesWithCost_sorted_and_stable sampleDevices (numLit 50)
      ⟨"Kitchen", devicesWithCost sampleDevices (numLit 50) "Kitchen"⟩ (by decide)
      (by decide)).1⟩

/-- For a finite rate and finite device energies no computed cost is `NaN` (a cost may still
overflow to an infinity). -/
theorem cost_not_nan_of_finite (userData : List Device) (r : JSNum) (hr : r.isFinite = true)
    (he : ∀ d ∈ userData, (energyOf d).isFinite = true) :
    ∀ d ∈ userData, ((energyOf d).mul r).isNaN = false :=
  fun d hd => mul_isNaN_of_finite _ _ (he d hd) hr

theorem getItem_setItem (store : Storage) (key value : String) :
    getItem (setItem store key value) key = some value := by
  induction store with
  | nil => simp [setItem, getItem]
  | cons p rest ih =>
    obtain ⟨k, v⟩ := p
    by_cases h : k = key
    · simp [setItem, getItem, h]
    · simp [setItem, getItem, h, ih]

theorem getItem_setItem_other (store : Storage) (key value other : String) (h : other ≠ key) :
    getItem (setItem store key value) other = getItem store other := by
  induction store with
  | nil => simp [setItem, getItem, Ne.symm h]
  | cons p rest ih =>
    obtain ⟨k, v⟩ := p
    by_cases hk : k = key
    · subst hk
      simp [setItem, getItem, Ne.symm h]
    · by_cases ho : k = other
      · subst ho
        simp [setItem, getItem, hk]
      · simp [setItem, getItem, hk, ho, ih]

theorem loadPersistedRate_saved (store : Storage) (v : JSNum) (hv : Representable v)
    (hn : v.isNaN = false) (hs : getItem store "energyRate" = some (numToString v)) :
    loadPersistedRate store = v := by
  have h1 := parseFloat_numToString v hv
  have h2 := numToString_ne_empty v hv hn
  simp [loadPersistedRate, loadSavedRate, initialWorld, hs, h1, h2, hn]

/-- C5: when the candidate text parses to a number that is neither `NaN` nor negative, saving
makes it the current rate, leaves the edit mode, writes `String(rate)` under the key
`energyRate` (leaving every other key as it was), and a restart on the resulting store loads
the same rate. -/
theorem updateRate_saves_and_reloads (w : World) (candidateText : String)
    (hn : (parseFloat candidateText).isNaN = false)
    (hneg : (parseFloat candidateText).ltZero = false) :
    (updateRate w candidateText).pricePerKwh = parseFloat candidateText ∧
    (updateRate w candidateText).isEditingRate = false ∧
    (updateRate w candidateText).toasts = w.toasts ++ [.success (parseFloat candidateText)] ∧
    getItem (updateRate w candidateText).localStorage "energyRate" =
      some (numToString (parseFloat candidateText)) ∧
    (∀ key, key ≠ "energyRate" →
      getItem (updateRate w candidateText).localStorage key = getItem w.localStorage key) ∧
    loadPersistedRate (updateRate w candidateText).localStorage = parseFloat candidateText := by
  have hu : updateRate w candidateText =
      { w with
        tempRate := candidateText
        pricePerKwh := parseFloat candidateText
        localStorage := setItem w.localStorage "energyRate" (numToString (parseFloat candidateText))
        isEditingRate := false
        toasts := w.toasts ++ [.success (parseFloat candidateText)] } := by
    simp [updateRate, handleSaveRate, onChangeRate, hn, hneg]
  rw [hu]
  refine ⟨rfl, rfl, rfl, getItem_setItem _ _ _, fun key hk => getItem_setItem_other _ _ _ _ hk, ?_⟩
  exact loadPersistedRate_saved _ _ (representable_parseFloat candidateText) hn
    (getItem_setItem _ _ _)

/-- Witness of C5: the text `75.5` typed while editing, on an empty store. -/
theorem updateRate_saves_and_reloads_witness :
    (updateRate (beginEdit (initialWorld [])) "75.5").pricePerKwh = parseFloat "75.5" ∧
    (updateRate (beginEdit (initialWorld [])) "75.5").localStorage = [("energyRate", "75.5")] ∧
    loadPersistedRate (updateRate (beginEdit (initialWorld [])) "75.5").localStorage =
      parseFloat "75.5" :=
  ⟨(updateRate_saves_and_reloads (beginEdit (initialWorld [])) "75.5" (by decide) (by decide)).1,
   by decide,
   (updateRate_saves_and_reloads (beginEdit (initialWorld [])) "75.5" (by decide)
     (by decide)).2.2.2.2.2⟩

end Benstore
